import Mathlib

/-!
# math-engine: the evaluator, the function registry and the diagnostics formatter

A shallow embedding of `engine/util.go` (`ParseAndExec`, `ErrPos`, `RegFunction`,
`ExprASTResult`) together with the parts of its environment the functions touch:

* `decimal.Decimal` of `github.com/shopspring/decimal`, the imported arbitrary-precision
  decimal type: a coefficient and a base-10 exponent, with the operations `util.go` calls;
* the expression tree `ExprAST` with its three node types;
* the function registry `defFunc`;
* Go panics, carried as the error side of `Except`;
* a second reading of the evaluator, over the state of the process, in which the
  registered callbacks are closures that may read and change that state.
-/

namespace Engine

/-! ## decimal.Decimal -/

/-- The library type `decimal.Decimal`: the number `value * 10 ^ exp`.
The coefficient is a `*big.Int`; the exponent is an `int32` in Go and is kept here as an
integer. `Mul` checks the sum of two exponents against the `int32` range and panics
outside it, as the library does; the range check of `QuoRem` is effective in some
versions of the library only and is left out. -/
structure Decimal where
  value : Int
  exp : Int
  deriving DecidableEq, Repr, Inhabited

/-! ## errors and panics -/

/-- The Go `error` values the functions create or receive. -/
inductive GoError where
  /-- The value `errors.New(msg)`. -/
  | message (msg : String)
  /-- The value `errors.New(fmt.Sprintf(..., l, r))` that `ExprASTResult` builds for the
  operator `op` ("/" or "%"): its text is a function of the operator and both operands. -/
  | divisionByZero (op : String) (l r : Decimal)
  /-- The `runtime.Error` of calling a nil function value. -/
  | nilFuncCall
  /-- The `runtime.Error` of a failed type assertion `e.(error)`. -/
  | typeAssertion
  deriving DecidableEq, Repr

/-- The value carried by a Go panic: either a value that implements `error`, or any other
value (the decimal library panics with plain strings). -/
inductive Fault where
  | error (e : GoError)
  | other (v : String)
  deriving DecidableEq, Repr

namespace Decimal

/-- Go `decimal.New(value, exp)`. -/
def New (value : Int) (exp : Int) : Decimal := ⟨value, exp⟩

/-- Go `decimal.Zero`, declared in the library as `New(0, 1)`. -/
def Zero : Decimal := New 0 1

/-- The zero value `decimal.Decimal{}` of the Go type (a nil coefficient, read as 0). -/
def zeroValue : Decimal := ⟨0, 0⟩

/-- Go `d.Sign()`: -1, 0 or 1 as the coefficient is negative, zero or positive. -/
def Sign (d : Decimal) : Int := Int.sign d.value

/-- Go `d.IsZero()`: `d.Sign() == 0`. -/
def IsZero (d : Decimal) : Bool := d.Sign == 0

/-- Go `d.rescale(exp)`: the same number at another exponent; moving to a larger
exponent truncates the coefficient (`big.Int.Quo`). -/
def rescale (d : Decimal) (exp : Int) : Decimal :=
  if d.exp = exp then d
  else
    let diff : Nat := (exp - d.exp).natAbs
    let expScale : Int := 10 ^ diff
    if exp > d.exp then ⟨Int.tdiv d.value expScale, exp⟩
    else ⟨d.value * expScale, exp⟩

/-- Go `RescalePair(d1, d2)`: both numbers at the smaller of the two exponents. -/
def RescalePair (d1 d2 : Decimal) : Decimal × Decimal :=
  if d1.exp = d2.exp then (d1, d2)
  else
    let baseScale := min d1.exp d2.exp
    if baseScale ≠ d1.exp then (d1.rescale baseScale, d2)
    else (d1, d2.rescale baseScale)

/-- Go `d.Add(d2)`. -/
def Add (d d2 : Decimal) : Decimal :=
  let p := RescalePair d d2
  ⟨p.1.value + p.2.value, p.1.exp⟩

/-- Go `d.Sub(d2)`. -/
def Sub (d d2 : Decimal) : Decimal :=
  let p := RescalePair d d2
  ⟨p.1.value - p.2.value, p.1.exp⟩

/-- The bounds `math.MinInt32` and `math.MaxInt32` of the exponent. -/
def MinInt32 : Int := -2147483648

/-- The bound `math.MaxInt32`. -/
def MaxInt32 : Int := 2147483647

/-- Go `d.Mul(d2)`: the exponents are added in `int64`, and the library panics with a
string when the sum does not fit an `int32`. -/
def Mul (d d2 : Decimal) : Except Fault Decimal :=
  let expInt64 := d.exp + d2.exp
  if expInt64 > MaxInt32 ∨ expInt64 < MinInt32 then
    .error (.other ("exponent " ++ toString expInt64 ++ " overflows an int32!"))
  else .ok ⟨d.value * d2.value, expInt64⟩

/-- Go `d.Abs()`. -/
def Abs (d : Decimal) : Decimal := ⟨|d.value|, d.exp⟩

/-- Go `d.Cmp(d2)`: -1, 0 or 1; the coefficients are compared at a common exponent. -/
def Cmp (d d2 : Decimal) : Int :=
  let p := RescalePair d d2
  if p.1.value < p.2.value then -1 else if p.1.value = p.2.value then 0 else 1

/-- The library constant `DivisionPrecision`: the number of decimal places `Div` keeps. -/
def DivisionPrecision : Int := 16

/-- Go `d.QuoRem(d2, precision)`: quotient `q` with `precision` decimal places and
remainder `r` with `d = d2 * q + r`; the integer division is `big.Int.QuoRem`
(truncated). Panics with a string when `d2` is zero. -/
def QuoRem (d d2 : Decimal) (precision : Int) : Except Fault (Decimal × Decimal) :=
  if Int.sign d2.value = 0 then .error (.other "decimal division by 0")
  else
    let scale := -precision
    let e := d.exp - d2.exp - scale
    let aa : Int := if e < 0 then d.value else d.value * 10 ^ e.toNat
    let bb : Int := if e < 0 then d2.value * 10 ^ (-e).toNat else d2.value
    let scalerest : Int := if e < 0 then d.exp else scale + d2.exp
    .ok (⟨Int.tdiv aa bb, scale⟩, ⟨Int.tmod aa bb, scalerest⟩)

/-- Go `d.DivRound(d2, precision)`: the quotient of `QuoRem`, moved one unit of the last
place away from zero when twice the remainder reaches the divisor. -/
def DivRound (d d2 : Decimal) (precision : Int) : Except Fault Decimal :=
  match d.QuoRem d2 precision with
  | .error f => .error f
  | .ok (q, r) =>
    let rv2 : Int := |r.value| * 2
    let r2 : Decimal := ⟨rv2, r.exp + precision⟩
    let c := r2.Cmp d2.Abs
    if c < 0 then .ok q
    else if Int.sign d.value * Int.sign d2.value < 0 then .ok (q.Sub (New 1 (-precision)))
    else .ok (q.Add (New 1 (-precision)))

/-- Go `d.Div(d2)`: `d.DivRound(d2, int32(DivisionPrecision))`. -/
def Div (d d2 : Decimal) : Except Fault Decimal := d.DivRound d2 DivisionPrecision

/-- Go `d.Mod(d2)`: the remainder of `d.QuoRem(d2, 0)`. -/
def Mod (d d2 : Decimal) : Except Fault Decimal :=
  match d.QuoRem d2 0 with
  | .error f => .error f
  | .ok (_, r) => .ok r

/-- The rational number a decimal stands for. -/
def toRat (d : Decimal) : ℚ := (d.value : ℚ) * (10 : ℚ) ^ d.exp

end Decimal

/-! ## the expression tree -/

/-- The interface `ExprAST` with the three node types `ExprASTResult` switches on.
`NumberExprAST` has the field `Val`, `BinaryExprAST` the fields `Op`, `Lhs`, `Rhs`,
`FunCallerExprAST` the fields `Name` and `Arg`. The type switch of `ExprASTResult` has
no other case; the operator of a binary node is any string. -/
inductive ExprAST where
  | NumberExprAST (Val : Decimal)
  | BinaryExprAST (Op : String) (Lhs Rhs : ExprAST)
  | FunCallerExprAST (Name : String) (Arg : List ExprAST)

/-! ## the function registry -/

/-- The library method `Decimal.Pow`, whose algorithm differs between the versions of the
library: it is a parameter of the evaluator, a function that returns a decimal or
panics. -/
abbrev PowFunc := Decimal → Decimal → Except Fault Decimal

/-- A registered callback, Go type `func(...ExprAST) decimal.Decimal`: it receives the
argument subtrees and either returns a decimal or panics. -/
abbrev Callback := List ExprAST → Except Fault Decimal

/-- The registry entry `defS{argc, fun}`; `func` is `none` for a nil function value. -/
structure defS where
  argc : Int
  func : Option Callback

/-- The zero value of `defS`, which a Go map lookup yields for an absent key. -/
def defS.zeroValue : defS := ⟨0, none⟩

/-- The global `defFunc map[string]defS`, as its lookup function. -/
abbrev Registry := String → Option defS

/-- The map assignment `defFunc[name] = d`. -/
def Registry.set (defFunc : Registry) (name : String) (d : defS) : Registry :=
  fun k => if k = name then some d else defFunc k

/-- The map read `defFunc[name]`: the entry, or the zero value when the key is absent. -/
def Registry.index (defFunc : Registry) (name : String) : defS :=
  (defFunc name).getD defS.zeroValue

/-- Go `RegFunction(name, argc, fun)`: the registry after the call and the returned
error (`none` for nil). -/
def RegFunction (defFunc : Registry) (name : String) (argc : Int) (func : Option Callback) :
    Registry × Option GoError :=
  if name.utf8ByteSize = 0 then
    (defFunc, some (.message "RegFunction name is not empty"))
  else if argc < -1 then
    (defFunc, some (.message "RegFunction argc should be -1, 0, or a positive integer"))
  else if (defFunc name).isSome then
    (defFunc, some (.message "RegFunction name is already exist"))
  else
    (defFunc.set name ⟨argc, func⟩, none)

/-! ## the evaluator -/

/-- Go `ExprASTResult(expr)`. A panic is the error side of the result: the two panics of
the function itself, and those of the library methods `Mul`, `Div`, `Mod` and `Pow` and
of the callbacks, which pass through it. `Pow` is the library method `Decimal.Pow`;
`defFunc` is the global registry the function reads. -/
def ExprASTResult (Pow : PowFunc) (defFunc : Registry) :
    ExprAST → Except Fault Decimal
  | .BinaryExprAST Op Lhs Rhs =>
    match ExprASTResult Pow defFunc Lhs with
    | .error f => .error f
    | .ok l =>
      match ExprASTResult Pow defFunc Rhs with
      | .error f => .error f
      | .ok r =>
        if Op = "+" then .ok (l.Add r)
        else if Op = "-" then .ok (l.Sub r)
        else if Op = "*" then l.Mul r
        else if Op = "/" then
          if r.IsZero then .error (.error (.divisionByZero "/" l r))
          else l.Div r
        else if Op = "%" then
          if r.IsZero then .error (.error (.divisionByZero "%" l r))
          else l.Mod r
        else if Op = "^" then Pow l r
        else .ok Decimal.Zero
  | .NumberExprAST Val => .ok Val
  | .FunCallerExprAST Name Arg =>
    match (defFunc.index Name).func with
    | none => .error (.error .nilFuncCall)
    | some f => f Arg

/-! ## the entry point -/

/-- The tokenizer and the parser, which live in other files of the package: `Parse`,
`NewAST`, the error slot `ast.Err` and `ast.ParseExpression()` are taken as parameters.
`ParseExpression` returns the tree together with the parser state after the call. -/
structure Frontend (Token AST : Type) where
  Parse : String → List Token × Option GoError
  NewAST : List Token → String → AST
  Err : AST → Option GoError
  ParseExpression : AST → ExprAST × AST

/-- Go `ParseAndExec(s)`: the pair `(r, err)` it returns, or the panic that leaves it.
The deferred function recovers a panic of `ExprASTResult` and stores `e.(error)` in the
named result `err`, while the named result `r` still holds the zero value of its type;
the type assertion panics in turn when the recovered value is no `error`. -/
def ParseAndExec {Token AST : Type} (fe : Frontend Token AST)
    (Pow : PowFunc) (defFunc : Registry) (s : String) :
    Except Fault (Decimal × Option GoError) :=
  match fe.Parse s with
  | (_, some err) => .ok (Decimal.Zero, some err)
  | (toks, none) =>
    let ast := fe.NewAST toks s
    match fe.Err ast with
    | some err => .ok (Decimal.Zero, some err)
    | none =>
      let ar := (fe.ParseExpression ast).1
      match fe.Err (fe.ParseExpression ast).2 with
      | some err => .ok (Decimal.Zero, some err)
      | none =>
        match ExprASTResult Pow defFunc ar with
        | .ok v => .ok (v, none)
        | .error (.error e) => .ok (Decimal.zeroValue, some e)
        | .error (.other _) => .error (.error .typeAssertion)

/-! ## the diagnostics formatter -/

/-- Go `strings.Repeat(s, count)` for a non-negative count. -/
def Repeat (s : String) : Nat → String
  | 0 => ""
  | n + 1 => Repeat s n ++ s

/-- The loop `for i := 0; i < pos; i++ { s += " " }` of `ErrPos`, by the number of
iterations that remain. -/
def ErrPos.loop : Nat → String → String
  | 0, s => s
  | n + 1, s => ErrPos.loop n (s ++ " ")

/-- Go `ErrPos(s, pos)`; `len(s)` is the number of bytes of `s`. -/
def ErrPos (s : String) (pos : Int) : String :=
  let r := Repeat "-" s.utf8ByteSize ++ "\n"
  let s := s ++ "\n"
  let s := ErrPos.loop pos.toNat s
  let s := s ++ "^\n"
  r ++ s ++ r

/-! ## predicates on trees -/

/-- The tree holds no function-call node. -/
def ExprAST.noCalls : ExprAST → Bool
  | .NumberExprAST _ => true
  | .BinaryExprAST _ Lhs Rhs => Lhs.noCalls && Rhs.noCalls
  | .FunCallerExprAST _ _ => false

/-- Some "/" or "%" node of the tree has a right operand that evaluates to zero. -/
def zeroDivisor (Pow : PowFunc) (defFunc : Registry) : ExprAST → Bool
  | .BinaryExprAST Op Lhs Rhs =>
    zeroDivisor Pow defFunc Lhs || zeroDivisor Pow defFunc Rhs ||
      (decide (Op = "/" ∨ Op = "%") &&
        match ExprASTResult Pow defFunc Rhs with
        | .ok r => r.IsZero
        | .error _ => false)
  | _ => false

/-- Some "*" node of the tree has operands whose exponents sum to a number outside the
`int32` range, where the library's `Mul` panics. -/
def mulOverflow (Pow : PowFunc) (defFunc : Registry) : ExprAST → Bool
  | .BinaryExprAST Op Lhs Rhs =>
    mulOverflow Pow defFunc Lhs || mulOverflow Pow defFunc Rhs ||
      (decide (Op = "*") &&
        match ExprASTResult Pow defFunc Lhs, ExprASTResult Pow defFunc Rhs with
        | .ok l, .ok r =>
          decide (l.exp + r.exp > Decimal.MaxInt32 ∨ l.exp + r.exp < Decimal.MinInt32)
        | _, _ => false)
  | _ => false

/-- At some "^" node of the tree the library's `Pow` panics on the values of the two
operands. -/
def powFaults (Pow : PowFunc) (defFunc : Registry) : ExprAST → Bool
  | .BinaryExprAST Op Lhs Rhs =>
    powFaults Pow defFunc Lhs || powFaults Pow defFunc Rhs ||
      (decide (Op = "^") &&
        match ExprASTResult Pow defFunc Lhs, ExprASTResult Pow defFunc Rhs with
        | .ok l, .ok r =>
          match Pow l r with
          | .ok _ => false
          | .error _ => true
        | _, _ => false)
  | _ => false

/-- The faults of a tree without function calls: the division-by-zero error of a "/" or
"%" node whose divisor evaluates to zero, the panic of the library's `Mul` at a "*" node
whose exponents leave the `int32` range, or a panic of the library's `Pow` at a "^"
node. -/
def CallFreeFault (Pow : PowFunc) (defFunc : Registry) (t : ExprAST) (f : Fault) : Prop :=
  (zeroDivisor Pow defFunc t = true ∧
    ∃ op l r, (op = "/" ∨ op = "%") ∧ r.value = 0 ∧ f = .error (.divisionByZero op l r)) ∨
  (mulOverflow Pow defFunc t = true ∧
    ∃ l r : Decimal,
      (l.exp + r.exp > Decimal.MaxInt32 ∨ l.exp + r.exp < Decimal.MinInt32) ∧
        l.Mul r = .error f) ∨
  (powFaults Pow defFunc t = true ∧ ∃ l r, Pow l r = .error f)

/-! ## callbacks as closures: the evaluator over the state of the process -/

/-- A registered callback as the Go closure it is: besides its argument subtrees it may
read and change the state `σ` of the process (the variables it has captured, the
registry itself through `RegFunction`); it returns or panics, and leaves a state. -/
abbrev Closure (σ : Type) := List ExprAST → σ → Except Fault Decimal × σ

/-- The registry entry `defS{argc, fun}` with a closure as its `fun`. -/
structure defSt (σ : Type) where
  argc : Int
  func : Option (Closure σ)

/-- The content of the global `defFunc` in each state of the process. -/
abbrev RegistrySt (σ : Type) := σ → String → Option (defSt σ)

/-- Go `ExprASTResult(expr)` over the state of the process: the outcome and the state
the evaluation leaves. The function holds no assignment: the state passes unchanged
through its own code, from the left subtree to the right one, and into and out of the
callback of a call node. -/
def ExprASTResultSt {σ : Type} (Pow : PowFunc) (defFunc : RegistrySt σ) :
    ExprAST → σ → Except Fault Decimal × σ
  | .BinaryExprAST Op Lhs Rhs, s =>
    match ExprASTResultSt Pow defFunc Lhs s with
    | (.error f, s1) => (.error f, s1)
    | (.ok l, s1) =>
      match ExprASTResultSt Pow defFunc Rhs s1 with
      | (.error f, s2) => (.error f, s2)
      | (.ok r, s2) =>
        if Op = "+" then (.ok (l.Add r), s2)
        else if Op = "-" then (.ok (l.Sub r), s2)
        else if Op = "*" then (l.Mul r, s2)
        else if Op = "/" then
          if r.IsZero then (.error (.error (.divisionByZero "/" l r)), s2)
          else (l.Div r, s2)
        else if Op = "%" then
          if r.IsZero then (.error (.error (.divisionByZero "%" l r)), s2)
          else (l.Mod r, s2)
        else if Op = "^" then (Pow l r, s2)
        else (.ok Decimal.Zero, s2)
  | .NumberExprAST Val, s => (.ok Val, s)
  | .FunCallerExprAST Name Arg, s =>
    match ((defFunc s Name).getD ⟨0, none⟩).func with
    | none => (.error (.error .nilFuncCall), s)
    | some f => f Arg s

/-- A registry whose callbacks neither read nor change the state, as a registry over
the state of the process. -/
def Registry.toSt {σ : Type} (defFunc : Registry) : RegistrySt σ :=
  fun _ k => (defFunc k).map fun d => ⟨d.argc, d.func.map fun f => fun args s => (f args, s)⟩

/-! ## exact arithmetic, the reference of the arithmetic claims -/

/-- The tree is built from number literals and the operators + - * / only. -/
def ExprAST.basic : ExprAST → Bool
  | .NumberExprAST _ => true
  | .BinaryExprAST Op Lhs Rhs =>
    decide (Op = "+" ∨ Op = "-" ∨ Op = "*" ∨ Op = "/") && Lhs.basic && Rhs.basic
  | .FunCallerExprAST _ _ => false

/-- The tree holds no "/" node. -/
def ExprAST.divFree : ExprAST → Bool
  | .NumberExprAST _ => true
  | .BinaryExprAST Op Lhs Rhs => decide (Op ≠ "/") && Lhs.divFree && Rhs.divFree
  | .FunCallerExprAST _ _ => false

/-- The value of a basic tree under exact arithmetic, in the rationals: nothing is
rounded. -/
def exactValue : ExprAST → ℚ
  | .NumberExprAST Val => Val.toRat
  | .BinaryExprAST Op Lhs Rhs =>
    if Op = "+" then exactValue Lhs + exactValue Rhs
    else if Op = "-" then exactValue Lhs - exactValue Rhs
    else if Op = "*" then exactValue Lhs * exactValue Rhs
    else if Op = "/" then exactValue Lhs / exactValue Rhs
    else 0
  | .FunCallerExprAST _ _ => 0

/-- Rounding of a rational to the nearest integer, halves away from zero. -/
def roundHalfAway (x : ℚ) : ℤ := if 0 ≤ x then ⌊x + 1 / 2⌋ else -⌊-x + 1 / 2⌋

/-- Rounding of a rational to 16 decimal places, halves away from zero. -/
def round16 (x : ℚ) : ℚ := (roundHalfAway (x * 10 ^ 16) : ℚ) / 10 ^ 16

/-- The value of a basic tree when sums, differences and products are exact and every
quotient is rounded to 16 decimal places. -/
def roundedValue : ExprAST → ℚ
  | .NumberExprAST Val => Val.toRat
  | .BinaryExprAST Op Lhs Rhs =>
    if Op = "+" then roundedValue Lhs + roundedValue Rhs
    else if Op = "-" then roundedValue Lhs - roundedValue Rhs
    else if Op = "*" then roundedValue Lhs * roundedValue Rhs
    else if Op = "/" then round16 (roundedValue Lhs / roundedValue Rhs)
    else 0
  | .FunCallerExprAST _ _ => 0

/-! ## instances used to run the functions on concrete inputs -/

/-- A power function to instantiate the parameter `Pow` in examples: integer exponents
by repeated multiplication (with the panic of `Mul`), 1 for every other exponent. -/
def demoPow : PowFunc := fun d d2 =>
  if d2.exp = 0 then
    (List.replicate d2.value.toNat d).foldl
      (fun acc x => match acc with
        | .ok a => a.Mul x
        | .error f => .error f)
      (.ok (Decimal.New 1 0))
  else .ok (Decimal.New 1 0)

/-- The empty registry. -/
def emptyRegistry : Registry := fun _ => none

/-- A callback that returns the number of argument subtrees it receives. -/
def countArgs : Callback := fun args => .ok (Decimal.New args.length 0)

/-- A registry over a counter: the closure `next` returns the counter and increments
it; the content of the registry is the same in every state. -/
def counterRegistry : RegistrySt Nat :=
  fun _ k =>
    if k = "next" then some ⟨0, some fun _ n => (.ok (Decimal.New n 0), n + 1)⟩ else none

/-- A registry over a number the closure `get` reads and leaves as it is. -/
def readerRegistry : RegistrySt Nat :=
  fun _ k =>
    if k = "get" then some ⟨0, some fun _ n => (.ok (Decimal.New n 0), n)⟩ else none

/-- The digit a character stands for. -/
def digitOf (c : Char) : Option Int :=
  if c.isDigit then some (c.toNat - 48) else none

/-- A small frontend to run the entry point on concrete inputs: the tokens are the
characters of the input, a space is a tokenizer error, and the parser accepts exactly
`digit operator digit` and `name()` for a one-letter name. The parser state is the
token list and the error slot. -/
def demoFrontend : Frontend Char (List Char × Option GoError) where
  Parse := fun s =>
    if s.data.contains ' ' then ([], some (.message "unexpected character"))
    else (s.data, none)
  NewAST := fun toks _ =>
    if toks.isEmpty then (toks, some (.message "empty input")) else (toks, none)
  Err := fun ast => ast.2
  ParseExpression := fun ast =>
    match ast.1 with
    | [a, op, b] =>
      match digitOf a, digitOf b with
      | some x, some y =>
        (.BinaryExprAST (String.singleton op) (.NumberExprAST (Decimal.New x 0))
          (.NumberExprAST (Decimal.New y 0)), ast)
      | _, _ =>
        if op = '(' ∧ b = ')' then (.FunCallerExprAST (String.singleton a) [], ast)
        else (.NumberExprAST Decimal.Zero, (ast.1, some (.message "syntax error")))
    | _ => (.NumberExprAST Decimal.Zero, (ast.1, some (.message "syntax error")))

/-- A callback that panics with a string, a value that is no `error`. -/
def panicString : Callback := fun _ => .error (.other "boom")

/-! # Theorems -/

/-! ## auxiliary lemmas -/

theorem utf8ByteSize_eq_zero_iff (s : String) : s.utf8ByteSize = 0 ↔ s = "" := by
  cases s with
  | mk l =>
    cases l with
    | nil => simp [String.utf8ByteSize, String.utf8ByteSize.go]
    | cons c cs =>
      have h := Char.utf8Size_pos c
      constructor
      · intro h0
        simp [String.utf8ByteSize, String.utf8ByteSize.go] at h0
        omega
      · intro h0
        have := congrArg String.data h0
        simp at this

theorem Decimal.IsZero_iff (d : Decimal) : d.IsZero = true ↔ d.value = 0 := by
  simp [Decimal.IsZero, Decimal.Sign, Int.sign_eq_zero_iff_zero]

theorem Decimal.Div_ok (d d2 : Decimal) (h : d2.value ≠ 0) : ∃ v, d.Div d2 = .ok v := by
  unfold Decimal.Div Decimal.DivRound Decimal.QuoRem
  have hs : Int.sign d2.value ≠ 0 := by simpa [Int.sign_eq_zero_iff_zero] using h
  simp only [hs, if_false]
  split_ifs <;> exact ⟨_, rfl⟩

theorem Decimal.Mod_ok (d d2 : Decimal) (h : d2.value ≠ 0) : ∃ v, d.Mod d2 = .ok v := by
  unfold Decimal.Mod Decimal.QuoRem
  have hs : Int.sign d2.value ≠ 0 := by simpa [Int.sign_eq_zero_iff_zero] using h
  simp only [hs, if_false]
  exact ⟨_, rfl⟩

/-- The evaluation of a binary node once both operands have evaluated. -/
theorem ExprASTResult_binary (Pow : PowFunc) (defFunc : Registry)
    (Op : String) (Lhs Rhs : ExprAST) (l r : Decimal)
    (hl : ExprASTResult Pow defFunc Lhs = .ok l)
    (hr : ExprASTResult Pow defFunc Rhs = .ok r) :
    ExprASTResult Pow defFunc (.BinaryExprAST Op Lhs Rhs) =
      if Op = "+" then .ok (l.Add r)
      else if Op = "-" then .ok (l.Sub r)
      else if Op = "*" then l.Mul r
      else if Op = "/" then
        if r.IsZero then .error (.error (.divisionByZero "/" l r)) else l.Div r
      else if Op = "%" then
        if r.IsZero then .error (.error (.divisionByZero "%" l r)) else l.Mod r
      else if Op = "^" then Pow l r
      else .ok Decimal.Zero := by
  rw [ExprASTResult, hl, hr]

/-- A "/" or "%" node whose operands evaluate to `l` and `r`: the division-by-zero error
when `r` is zero, a value otherwise. -/
theorem divmod_node (Pow : PowFunc) (defFunc : Registry)
    (Op : String) (Lhs Rhs : ExprAST) (l r : Decimal)
    (hop : Op = "/" ∨ Op = "%")
    (hl : ExprASTResult Pow defFunc Lhs = .ok l)
    (hr : ExprASTResult Pow defFunc Rhs = .ok r) :
    (r.value = 0 → ExprASTResult Pow defFunc (.BinaryExprAST Op Lhs Rhs) =
      .error (.error (.divisionByZero Op l r))) ∧
    (r.value ≠ 0 → ∃ v, ExprASTResult Pow defFunc (.BinaryExprAST Op Lhs Rhs) = .ok v) := by
  rw [ExprASTResult_binary Pow defFunc Op Lhs Rhs l r hl hr]
  constructor
  · intro hz
    have hZ : r.IsZero = true := (Decimal.IsZero_iff r).2 hz
    rcases hop with rfl | rfl
    · simp [hZ]
    · simp [hZ]
  · intro hz
    have hZ : r.IsZero = false := by
      cases h : r.IsZero
      · rfl
      · exact absurd ((Decimal.IsZero_iff r).1 h) hz
    rcases hop with rfl | rfl
    · obtain ⟨v, hv⟩ := Decimal.Div_ok l r hz
      simp [hZ, hv]
    · obtain ⟨v, hv⟩ := Decimal.Mod_ok l r hz
      simp [hZ, hv]

/-! ## C1: division and modulo by zero -/

/-- C1: for a binary node with operator "/" or "%" whose operands both evaluate without
fault, to `l` and `r`, the node faults if and only if `r` is zero, whatever `l` is; the
fault is then the division-by-zero error built from the operator and both operands. -/
theorem divmod_faults_iff_right_zero (Pow : PowFunc) (defFunc : Registry)
    (Op : String) (Lhs Rhs : ExprAST) (l r : Decimal)
    (hop : Op = "/" ∨ Op = "%")
    (hl : ExprASTResult Pow defFunc Lhs = .ok l)
    (hr : ExprASTResult Pow defFunc Rhs = .ok r) :
    ((∃ f, ExprASTResult Pow defFunc (.BinaryExprAST Op Lhs Rhs) = .error f) ↔ r.value = 0) ∧
    (r.value = 0 → ExprASTResult Pow defFunc (.BinaryExprAST Op Lhs Rhs) =
      .error (.error (.divisionByZero Op l r))) := by
  obtain ⟨h0, h1⟩ := divmod_node Pow defFunc Op Lhs Rhs l r hop hl hr
  refine ⟨⟨?_, fun hz => ⟨_, h0 hz⟩⟩, h0⟩
  rintro ⟨f, hf⟩
  by_contra hz
  obtain ⟨v, hv⟩ := h1 hz
  rw [hv] at hf
  cases hf

/-- Witness of C1: `5 / 0` faults, with both operands in the error. -/
theorem divmod_faults_iff_right_zero_witness :
    ExprASTResult demoPow emptyRegistry
        (.BinaryExprAST "/" (.NumberExprAST ⟨5, 0⟩) (.NumberExprAST ⟨0, 0⟩)) =
      .error (.error (.divisionByZero "/" ⟨5, 0⟩ ⟨0, 0⟩)) :=
  (divmod_faults_iff_right_zero demoPow emptyRegistry "/" (.NumberExprAST ⟨5, 0⟩)
    (.NumberExprAST ⟨0, 0⟩) ⟨5, 0⟩ ⟨0, 0⟩ (Or.inl rfl) rfl rfl).2 rfl

/-! ## truncated division and rounding -/

theorem tmod_neg_left (a b : ℤ) : Int.tmod (-a) b = -Int.tmod a b := by
  rw [Int.tmod_def, Int.tmod_def, Int.neg_tdiv]
  ring

theorem tmod_nonpos (a b : ℤ) (ha : a ≤ 0) : Int.tmod a b ≤ 0 := by
  have h := Int.tmod_nonneg b (neg_nonneg.2 ha)
  rw [tmod_neg_left] at h
  linarith

theorem abs_tmod_lt_of_pos (a b : ℤ) (hb : 0 < b) : |Int.tmod a b| < b := by
  rw [abs_lt]
  constructor
  · rcases le_total 0 a with ha | ha
    · have := Int.tmod_nonneg b ha
      linarith
    · have h := Int.tmod_lt_of_pos (-a) hb
      rw [tmod_neg_left] at h
      linarith
  · exact Int.tmod_lt_of_pos a hb

theorem abs_tmod_lt (a b : ℤ) (hb : b ≠ 0) : |Int.tmod a b| < |b| := by
  rcases lt_or_gt_of_ne hb with h | h
  · have h1 := abs_tmod_lt_of_pos a (-b) (neg_pos.2 h)
    rw [Int.tmod_neg] at h1
    rw [abs_of_neg h]
    exact h1
  · rw [abs_of_pos h]
    exact abs_tmod_lt_of_pos a b h

theorem floor_add_half (q : ℤ) (t : ℚ) (h0 : 0 ≤ t) (h1 : t < 1) :
    ⌊(q : ℚ) + t + 1 / 2⌋ = if t < 1 / 2 then q else q + 1 := by
  split_ifs with h
  · rw [Int.floor_eq_iff]
    constructor <;> linarith
  · rw [Int.floor_eq_iff]
    push_cast
    constructor <;> linarith

theorem roundHalfAway_of_nonpos (x : ℚ) (hx : x ≤ 0) : roundHalfAway x = -⌊-x + 1 / 2⌋ := by
  unfold roundHalfAway
  split_ifs with h
  · have : x = 0 := le_antisymm hx h
    subst this
    norm_num
  · rfl

/-- The integer `DivRound` computes from the truncated quotient and remainder of `a` by
`b` is the exact quotient `a / b` rounded half away from zero. -/
theorem roundHalfAway_div (a b : ℤ) (hb : b ≠ 0) :
    roundHalfAway ((a : ℚ) / b) =
      if |Int.tmod a b| * 2 < |b| then Int.tdiv a b
      else if Int.sign a * Int.sign b < 0 then Int.tdiv a b - 1
      else Int.tdiv a b + 1 := by
  have hbq : (b : ℚ) ≠ 0 := by exact_mod_cast hb
  have habs : (0 : ℚ) < |(b : ℚ)| := abs_pos.2 hbq
  have hdec : (a : ℚ) = b * Int.tdiv a b + Int.tmod a b := by
    exact_mod_cast (Int.tdiv_add_tmod a b).symm
  have hx : (a : ℚ) / b = Int.tdiv a b + (Int.tmod a b : ℚ) / b := by
    rw [hdec]
    field_simp
    ring
  have hlt : |(Int.tmod a b : ℚ)| < |(b : ℚ)| := by
    exact_mod_cast abs_tmod_lt a b hb
  have hr00 : a = 0 → Int.tmod a b = 0 := by
    rintro rfl
    exact Int.zero_tmod b
  have hr0 : 0 ≤ a → 0 ≤ Int.tmod a b := fun h => Int.tmod_nonneg b h
  have hr1 : a ≤ 0 → Int.tmod a b ≤ 0 := fun h => tmod_nonpos a b h
  generalize Int.tdiv a b = q at *
  generalize Int.tmod a b = r at *
  have ht0 : 0 ≤ |(r : ℚ)| / |(b : ℚ)| := div_nonneg (abs_nonneg _) (abs_nonneg _)
  have ht1 : |(r : ℚ)| / |(b : ℚ)| < 1 := (div_lt_one habs).2 hlt
  have hhalf : (|r| * 2 < |b|) ↔ |(r : ℚ)| / |(b : ℚ)| < 1 / 2 := by
    rw [div_lt_iff₀ habs]
    constructor
    · intro h
      have : (|(r : ℚ)| * 2 < |(b : ℚ)|) := by exact_mod_cast h
      linarith
    · intro h
      have : (|(r : ℚ)| * 2 < |(b : ℚ)|) := by linarith
      exact_mod_cast this
  have hfl := floor_add_half q _ ht0 ht1
  have hfl2 := floor_add_half (-q) _ ht0 ht1
  have hsmall : ¬ |(r : ℚ)| / |(b : ℚ)| < 1 / 2 → a ≠ 0 := by
    intro h ha
    apply h
    rw [hr00 ha]
    norm_num
  -- operands of the same sign: the quotient is `q + t`
  have same : 0 ≤ (a : ℚ) / b → (r : ℚ) / b = |(r : ℚ)| / |(b : ℚ)| →
      ¬ Int.sign a * Int.sign b < 0 →
      roundHalfAway ((a : ℚ) / b) =
        if |r| * 2 < |b| then q else if Int.sign a * Int.sign b < 0 then q - 1 else q + 1 := by
    intro hge htx hs
    unfold roundHalfAway
    rw [if_pos hge, hx, htx, hfl]
    by_cases h : |(r : ℚ)| / |(b : ℚ)| < 1 / 2
    · rw [if_pos h, if_pos (hhalf.2 h)]
    · rw [if_neg h, if_neg (mt hhalf.1 h), if_neg hs]
  -- operands of opposite signs: the quotient is `q - t`
  have opp : (a : ℚ) / b ≤ 0 → (r : ℚ) / b = -(|(r : ℚ)| / |(b : ℚ)|) →
      (a ≠ 0 → Int.sign a * Int.sign b < 0) →
      roundHalfAway ((a : ℚ) / b) =
        if |r| * 2 < |b| then q else if Int.sign a * Int.sign b < 0 then q - 1 else q + 1 := by
    intro hle htx hs
    rw [roundHalfAway_of_nonpos _ hle, hx, htx]
    have e : -((q : ℚ) + -(|(r : ℚ)| / |(b : ℚ)|)) + 1 / 2 =
        ((-q : ℤ) : ℚ) + |(r : ℚ)| / |(b : ℚ)| + 1 / 2 := by
      push_cast; ring
    rw [e, hfl2]
    by_cases h : |(r : ℚ)| / |(b : ℚ)| < 1 / 2
    · rw [if_pos h, if_pos (hhalf.2 h)]
      ring
    · rw [if_neg h, if_neg (mt hhalf.1 h), if_pos (hs (hsmall h))]
      ring
  rcases le_total 0 a with ha | ha <;> rcases lt_or_gt_of_ne hb with hb0 | hb0
  · -- 0 ≤ a, b < 0
    have hrq : (0 : ℚ) ≤ r := by exact_mod_cast hr0 ha
    have hbq0 : (b : ℚ) < 0 := by exact_mod_cast hb0
    have haq : (0 : ℚ) ≤ a := by exact_mod_cast ha
    refine opp (div_nonpos_of_nonneg_of_nonpos haq hbq0.le) ?_ ?_
    · rw [abs_of_nonneg hrq, abs_of_neg hbq0, div_neg, neg_neg]
    · intro hne
      have hapos : 0 < a := lt_of_le_of_ne ha (Ne.symm hne)
      rw [Int.sign_eq_one_of_pos hapos, Int.sign_eq_neg_one_of_neg hb0]
      decide
  · -- 0 ≤ a, 0 < b
    have hrq : (0 : ℚ) ≤ r := by exact_mod_cast hr0 ha
    have hbq0 : (0 : ℚ) < b := by exact_mod_cast hb0
    have haq : (0 : ℚ) ≤ a := by exact_mod_cast ha
    refine same (div_nonneg haq hbq0.le) ?_ ?_
    · rw [abs_of_nonneg hrq, abs_of_pos hbq0]
    · rw [Int.sign_eq_one_of_pos hb0, mul_one, not_lt]
      exact Int.sign_nonneg.2 ha
  · -- a ≤ 0, b < 0
    have hrq : (r : ℚ) ≤ 0 := by exact_mod_cast hr1 ha
    have hbq0 : (b : ℚ) < 0 := by exact_mod_cast hb0
    have haq : (a : ℚ) ≤ 0 := by exact_mod_cast ha
    refine same (div_nonneg_of_nonpos haq hbq0.le) ?_ ?_
    · rw [abs_of_nonpos hrq, abs_of_neg hbq0, neg_div_neg_eq]
    · rw [Int.sign_eq_neg_one_of_neg hb0, not_lt]
      have : Int.sign a ≤ 0 := by
        rcases lt_or_eq_of_le ha with h | h
        · rw [Int.sign_eq_neg_one_of_neg h]; decide
        · rw [h]; decide
      linarith
  · -- a ≤ 0, 0 < b
    have hrq : (r : ℚ) ≤ 0 := by exact_mod_cast hr1 ha
    have hbq0 : (0 : ℚ) < b := by exact_mod_cast hb0
    have haq : (a : ℚ) ≤ 0 := by exact_mod_cast ha
    refine opp (div_nonpos_of_nonpos_of_nonneg haq hbq0.le) ?_ ?_
    · rw [abs_of_nonpos hrq, abs_of_pos hbq0, neg_div, neg_neg]
    · intro hne
      have haneg : a < 0 := lt_of_le_of_ne ha hne
      rw [Int.sign_eq_neg_one_of_neg haneg, Int.sign_eq_one_of_pos hb0]
      decide

/-! ## the value of the library operations -/

theorem ten_zpow_pos (e : ℤ) : (0 : ℚ) < (10 : ℚ) ^ e := zpow_pos (by norm_num) e

theorem Decimal.rescale_spec (d : Decimal) (exp : ℤ) (h : exp ≤ d.exp) :
    (d.rescale exp).toRat = d.toRat ∧ (d.rescale exp).exp = exp := by
  unfold Decimal.rescale
  by_cases h1 : d.exp = exp
  · rw [if_pos h1]; exact ⟨rfl, h1⟩
  · rw [if_neg h1]
    have h2 : ¬ exp > d.exp := not_lt.2 h
    simp only [h2, if_false, Decimal.toRat, and_true]
    have hn : ((exp - d.exp).natAbs : ℤ) = d.exp - exp := by omega
    have h10 : (10 : ℚ) ≠ 0 := by norm_num
    push_cast
    rw [mul_assoc, ← zpow_natCast, ← zpow_add₀ h10, hn]
    congr 2
    ring

theorem Decimal.RescalePair_spec (a b : Decimal) :
    (Decimal.RescalePair a b).1.toRat = a.toRat ∧
    (Decimal.RescalePair a b).2.toRat = b.toRat ∧
    (Decimal.RescalePair a b).1.exp = (Decimal.RescalePair a b).2.exp := by
  unfold Decimal.RescalePair
  by_cases h : a.exp = b.exp
  · rw [if_pos h]; exact ⟨rfl, rfl, h⟩
  · rw [if_neg h]
    by_cases h2 : min a.exp b.exp ≠ a.exp
    · dsimp only
      rw [if_pos h2]
      have hle : min a.exp b.exp ≤ a.exp := min_le_left _ _
      have hb : min a.exp b.exp = b.exp := by
        rcases min_choice a.exp b.exp with h3 | h3
        · exact absurd h3 h2
        · exact h3
      obtain ⟨r1, r2⟩ := Decimal.rescale_spec a _ hle
      exact ⟨r1, rfl, r2.trans hb⟩
    · have h3 : min a.exp b.exp = a.exp := not_not.1 h2
      dsimp only
      rw [if_neg h2]
      have hle : a.exp ≤ b.exp := by rw [← h3]; exact min_le_right _ _
      obtain ⟨r1, r2⟩ := Decimal.rescale_spec b _ hle
      rw [h3]
      exact ⟨rfl, r1, r2.symm⟩

theorem Decimal.toRat_mk (v e : ℤ) : Decimal.toRat ⟨v, e⟩ = (v : ℚ) * (10 : ℚ) ^ e := rfl

theorem Decimal.toRat_Add (a b : Decimal) : (a.Add b).toRat = a.toRat + b.toRat := by
  obtain ⟨h1, h2, h3⟩ := Decimal.RescalePair_spec a b
  unfold Decimal.Add
  rw [← h1, ← h2]
  simp only [Decimal.toRat, h3]
  push_cast
  ring

theorem Decimal.toRat_Sub (a b : Decimal) : (a.Sub b).toRat = a.toRat - b.toRat := by
  obtain ⟨h1, h2, h3⟩ := Decimal.RescalePair_spec a b
  unfold Decimal.Sub
  rw [← h1, ← h2]
  simp only [Decimal.toRat, h3]
  push_cast
  ring

/-- Go `Mul` inside the exponent range: it returns, and the product is exact. -/
theorem Decimal.Mul_spec (a b : Decimal)
    (h : ¬ (a.exp + b.exp > Decimal.MaxInt32 ∨ a.exp + b.exp < Decimal.MinInt32)) :
    ∃ v, a.Mul b = .ok v ∧ v.toRat = a.toRat * b.toRat := by
  have h10 : (10 : ℚ) ≠ 0 := by norm_num
  refine ⟨⟨a.value * b.value, a.exp + b.exp⟩, ?_, ?_⟩
  · unfold Decimal.Mul
    dsimp only
    rw [if_neg h]
  · simp only [Decimal.toRat]
    push_cast
    rw [zpow_add₀ h10]
    ring

/-- Go `Mul` outside the exponent range: it panics. -/
theorem Decimal.Mul_overflow (a b : Decimal)
    (h : a.exp + b.exp > Decimal.MaxInt32 ∨ a.exp + b.exp < Decimal.MinInt32) :
    ∃ f, a.Mul b = .error f := by
  unfold Decimal.Mul
  dsimp only
  rw [if_pos h]
  exact ⟨_, rfl⟩

theorem Decimal.Cmp_neg_iff (a b : Decimal) : a.Cmp b < 0 ↔ a.toRat < b.toRat := by
  obtain ⟨h1, h2, h3⟩ := Decimal.RescalePair_spec a b
  have hp := ten_zpow_pos (Decimal.RescalePair a b).2.exp
  have hv : (Decimal.RescalePair a b).1.value < (Decimal.RescalePair a b).2.value ↔
      a.toRat < b.toRat := by
    rw [← h1, ← h2]
    simp only [Decimal.toRat, h3]
    rw [mul_lt_mul_right hp]
    exact Int.cast_lt.symm
  rw [← hv]
  unfold Decimal.Cmp
  simp only
  split_ifs with c1 c2
  · simp [c1]
  · simp [c1]
  · simp [c1]

theorem sign_mul_ten_pow (a : ℤ) (n : ℕ) : Int.sign (a * 10 ^ n) = Int.sign a := by
  have h : (0 : ℤ) < 10 ^ n := by positivity
  rw [Int.sign_mul, Int.sign_eq_one_of_pos h, mul_one]

/-- The scaled integers `QuoRem` divides: their quotient is the exact quotient of the
operands, shifted by `precision` places. -/
theorem Decimal.QuoRem_spec (d d2 : Decimal) (p : ℤ) (h : d2.value ≠ 0) :
    ∃ aa bb sr : ℤ,
      d.QuoRem d2 p = .ok (⟨Int.tdiv aa bb, -p⟩, ⟨Int.tmod aa bb, sr⟩) ∧ bb ≠ 0 ∧
      (aa : ℚ) / bb = d.toRat / d2.toRat * (10 : ℚ) ^ p ∧
      Int.sign aa = Int.sign d.value ∧ Int.sign bb = Int.sign d2.value ∧
      (Decimal.Abs d2).toRat = ((|bb| : ℤ) : ℚ) * (10 : ℚ) ^ (sr + p) := by
  have hs : Int.sign d2.value ≠ 0 := by simpa [Int.sign_eq_zero_iff_zero] using h
  have h10 : (10 : ℚ) ≠ 0 := by norm_num
  have hbq : (d2.value : ℚ) ≠ 0 := by exact_mod_cast h
  unfold Decimal.QuoRem
  rw [if_neg hs]
  by_cases he : d.exp - d2.exp - -p < 0
  · refine ⟨d.value, d2.value * 10 ^ (-(d.exp - d2.exp - -p)).toNat, d.exp, ?_, ?_, ?_, rfl,
      sign_mul_ten_pow _ _, ?_⟩
    · simp only [he, if_true]
    · exact mul_ne_zero h (by positivity)
    · have hn : (((-(d.exp - d2.exp - -p)).toNat : ℕ) : ℤ) = d2.exp - d.exp - p := by omega
      simp only [Decimal.toRat]
      push_cast
      rw [← zpow_natCast, hn]
      have e1 : (10 : ℚ) ^ (d2.exp - d.exp - p) = 10 ^ d2.exp / (10 ^ d.exp * 10 ^ p) := by
        rw [sub_sub, zpow_sub₀ h10, zpow_add₀ h10]
      rw [e1]
      have := ten_zpow_pos d.exp
      have := ten_zpow_pos d2.exp
      have := ten_zpow_pos p
      field_simp
      ring
    · have hn : (((-(d.exp - d2.exp - -p)).toNat : ℕ) : ℤ) = d2.exp - d.exp - p := by omega
      simp only [Decimal.toRat, Decimal.Abs]
      rw [abs_mul, abs_of_pos (show (0 : ℤ) < 10 ^ _ by positivity)]
      push_cast
      rw [← zpow_natCast, hn, mul_assoc, ← zpow_add₀ h10]
      congr 2
      ring
  · refine ⟨d.value * 10 ^ (d.exp - d2.exp - -p).toNat, d2.value, -p + d2.exp, ?_, h, ?_,
      sign_mul_ten_pow _ _, rfl, ?_⟩
    · simp only [he, if_false]
    · have hn : (((d.exp - d2.exp - -p).toNat : ℕ) : ℤ) = d.exp - d2.exp + p := by omega
      simp only [Decimal.toRat]
      push_cast
      rw [← zpow_natCast, hn]
      have e1 : (10 : ℚ) ^ (d.exp - d2.exp + p) = 10 ^ d.exp / 10 ^ d2.exp * 10 ^ p := by
        rw [zpow_add₀ h10, zpow_sub₀ h10]
      rw [e1]
      have := ten_zpow_pos d.exp
      have := ten_zpow_pos d2.exp
      have := ten_zpow_pos p
      field_simp
      ring
    · simp only [Decimal.toRat, Decimal.Abs]
      congr 2
      ring

/-- Go `DivRound`: the exact quotient rounded to `precision` decimal places, halves
away from zero. -/
theorem Decimal.DivRound_spec (d d2 : Decimal) (p : ℤ) (h : d2.value ≠ 0) :
    ∃ v, d.DivRound d2 p = .ok v ∧
      v.toRat = (roundHalfAway (d.toRat / d2.toRat * (10 : ℚ) ^ p) : ℚ) * (10 : ℚ) ^ (-p) := by
  obtain ⟨aa, bb, sr, hq, hbb, hquot, hsa, hsb, habs⟩ := Decimal.QuoRem_spec d d2 p h
  have hround := roundHalfAway_div aa bb hbb
  rw [hquot] at hround
  have hcmp : Decimal.Cmp ⟨|Int.tmod aa bb| * 2, sr + p⟩ d2.Abs < 0 ↔
      |Int.tmod aa bb| * 2 < |bb| := by
    rw [Decimal.Cmp_neg_iff, habs, Decimal.toRat_mk, mul_lt_mul_right (ten_zpow_pos _)]
    exact Int.cast_lt
  unfold Decimal.DivRound
  rw [hq]
  dsimp only
  rw [hround, ← hsa, ← hsb]
  by_cases c1 : |Int.tmod aa bb| * 2 < |bb|
  · rw [if_pos (hcmp.2 c1), if_pos c1]
    exact ⟨_, rfl, rfl⟩
  · rw [if_neg (mt hcmp.1 c1), if_neg c1]
    by_cases c2 : Int.sign aa * Int.sign bb < 0
    · rw [if_pos c2, if_pos c2]
      refine ⟨_, rfl, ?_⟩
      rw [Decimal.toRat_Sub]
      simp only [Decimal.toRat, Decimal.New]
      push_cast
      ring
    · rw [if_neg c2, if_neg c2]
      refine ⟨_, rfl, ?_⟩
      rw [Decimal.toRat_Add]
      simp only [Decimal.toRat, Decimal.New]
      push_cast
      ring

/-- Go `Div`: the exact quotient rounded to 16 decimal places. -/
theorem Decimal.Div_spec (d d2 : Decimal) (h : d2.value ≠ 0) :
    ∃ v, d.Div d2 = .ok v ∧ v.toRat = round16 (d.toRat / d2.toRat) := by
  obtain ⟨v, hv, hr⟩ := Decimal.DivRound_spec d d2 16 h
  refine ⟨v, hv, ?_⟩
  rw [hr, round16]
  norm_num [zpow_neg, div_eq_mul_inv]

/-! ## C2: the value of a basic tree -/

theorem roundedValue_of_divFree : ∀ t : ExprAST, t.divFree = true →
    roundedValue t = exactValue t
  | .NumberExprAST _, _ => rfl
  | .FunCallerExprAST _ _, _ => rfl
  | .BinaryExprAST Op Lhs Rhs, h => by
    simp only [ExprAST.divFree, Bool.and_eq_true, decide_eq_true_eq] at h
    have hl := roundedValue_of_divFree Lhs h.1.2
    have hr := roundedValue_of_divFree Rhs h.2
    rw [roundedValue, exactValue, hl, hr]
    simp only [h.1.1, if_false]

/-- C2 as stated fails at two trees. At `1 / 3` the tree is basic, its divisor is not
zero, the evaluation returns 0.3333333333333333, and that is not the exact value 1/3. At
`1e2147483647 * 1e1` the tree is basic and has no divisor, and the evaluation returns
nothing: the library's `Mul` panics, the exponent of the product being outside `int32`. -/
theorem exact_arithmetic_counterexample :
    ((ExprAST.BinaryExprAST "/" (.NumberExprAST ⟨1, 0⟩) (.NumberExprAST ⟨3, 0⟩)).basic = true ∧
    zeroDivisor demoPow emptyRegistry
      (.BinaryExprAST "/" (.NumberExprAST ⟨1, 0⟩) (.NumberExprAST ⟨3, 0⟩)) = false ∧
    ExprASTResult demoPow emptyRegistry
      (.BinaryExprAST "/" (.NumberExprAST ⟨1, 0⟩) (.NumberExprAST ⟨3, 0⟩)) =
        .ok ⟨3333333333333333, -16⟩ ∧
    Decimal.toRat ⟨3333333333333333, -16⟩ ≠
      exactValue (.BinaryExprAST "/" (.NumberExprAST ⟨1, 0⟩) (.NumberExprAST ⟨3, 0⟩))) ∧
    ((ExprAST.BinaryExprAST "*" (.NumberExprAST ⟨1, 2147483647⟩)
        (.NumberExprAST ⟨1, 1⟩)).basic = true ∧
    zeroDivisor demoPow emptyRegistry
      (.BinaryExprAST "*" (.NumberExprAST ⟨1, 2147483647⟩) (.NumberExprAST ⟨1, 1⟩)) = false ∧
    ExprASTResult demoPow emptyRegistry
      (.BinaryExprAST "*" (.NumberExprAST ⟨1, 2147483647⟩) (.NumberExprAST ⟨1, 1⟩)) =
        .error (.other "exponent 2147483648 overflows an int32!")) := by
  refine ⟨⟨rfl, rfl, rfl, ?_⟩, rfl, rfl, rfl⟩
  have h1 : ¬ ("/" : String) = "+" := by decide
  have h2 : ¬ ("/" : String) = "-" := by decide
  have h3 : ¬ ("/" : String) = "*" := by decide
  rw [exactValue, if_neg h1, if_neg h2, if_neg h3, if_pos rfl]
  norm_num [Decimal.toRat, exactValue]

/-- C2, amended: on a tree of number literals and + - * / in which no divisor evaluates
to zero and no product has factors whose exponents sum outside the `int32` range,
`ExprASTResult` returns the value of the expression when sums, differences and products
are exact and every quotient is rounded to 16 decimal places (halves away from zero);
so such a tree without "/" evaluates to its exact value, and a number literal evaluates
to its stored value unchanged. -/
theorem basic_tree_value (Pow : PowFunc) (defFunc : Registry) :
    ∀ t : ExprAST, t.basic = true → zeroDivisor Pow defFunc t = false →
      mulOverflow Pow defFunc t = false →
      ∃ v, ExprASTResult Pow defFunc t = .ok v ∧ v.toRat = roundedValue t ∧
        (t.divFree = true → v.toRat = exactValue t) ∧
        (∀ Val, t = .NumberExprAST Val → v = Val)
  | .NumberExprAST Val, _, _, _ =>
    ⟨Val, by rw [ExprASTResult], rfl, fun _ => rfl, fun _ h => by injection h⟩
  | .FunCallerExprAST _ _, h, _, _ => by simp [ExprAST.basic] at h
  | .BinaryExprAST Op Lhs Rhs, h, hz, hm => by
    simp only [ExprAST.basic, Bool.and_eq_true, decide_eq_true_eq] at h
    simp only [zeroDivisor, Bool.or_eq_false_iff, Bool.and_eq_false_iff] at hz
    simp only [mulOverflow, Bool.or_eq_false_iff, Bool.and_eq_false_iff] at hm
    obtain ⟨⟨hzl, hzr⟩, hzn⟩ := hz
    obtain ⟨⟨hml, hmr⟩, hmn⟩ := hm
    obtain ⟨l, hl, hlv, -, -⟩ := basic_tree_value Pow defFunc Lhs h.1.2 hzl hml
    obtain ⟨r, hr, hrv, -, -⟩ := basic_tree_value Pow defFunc Rhs h.2 hzr hmr
    have hdf : ∀ v : Decimal, v.toRat = roundedValue (.BinaryExprAST Op Lhs Rhs) →
        (ExprAST.BinaryExprAST Op Lhs Rhs).divFree = true →
        v.toRat = exactValue (.BinaryExprAST Op Lhs Rhs) :=
      fun v hv hd => hv.trans (roundedValue_of_divFree _ hd)
    have hb := ExprASTResult_binary Pow defFunc Op Lhs Rhs l r hl hr
    have fin : ∀ v : Decimal, ExprASTResult Pow defFunc (.BinaryExprAST Op Lhs Rhs) = .ok v →
        v.toRat = roundedValue (.BinaryExprAST Op Lhs Rhs) →
        ∃ v, ExprASTResult Pow defFunc (.BinaryExprAST Op Lhs Rhs) = .ok v ∧
          v.toRat = roundedValue (.BinaryExprAST Op Lhs Rhs) ∧
          ((ExprAST.BinaryExprAST Op Lhs Rhs).divFree = true →
            v.toRat = exactValue (.BinaryExprAST Op Lhs Rhs)) ∧
          (∀ Val, ExprAST.BinaryExprAST Op Lhs Rhs = .NumberExprAST Val → v = Val) :=
      fun v h1 h2 => ⟨v, h1, h2, hdf v h2, fun _ h => by cases h⟩
    rcases h.1.1 with rfl | rfl | rfl | rfl
    · exact fin (l.Add r) (by rw [hb]; rfl)
        (by rw [Decimal.toRat_Add, roundedValue, hlv, hrv]; rfl)
    · exact fin (l.Sub r) (by rw [hb]; rfl)
        (by rw [Decimal.toRat_Sub, roundedValue, hlv, hrv]; rfl)
    · have hin : ¬ (l.exp + r.exp > Decimal.MaxInt32 ∨ l.exp + r.exp < Decimal.MinInt32) := by
        rcases hmn with hmn | hmn
        · simp at hmn
        · simpa [hl, hr] using hmn
      obtain ⟨v, hv, hvr⟩ := Decimal.Mul_spec l r hin
      refine fin v ?_ ?_
      · rw [hb]
        exact hv
      · rw [hvr, roundedValue, hlv, hrv]
        rfl
    · have hZ : r.IsZero = false := by
        rcases hzn with hzn | hzn
        · simp at hzn
        · simpa [hr] using hzn
      have hne : r.value ≠ 0 := fun h0 => by
        rw [(Decimal.IsZero_iff r).2 h0] at hZ
        cases hZ
      obtain ⟨v, hv, hvr⟩ := Decimal.Div_spec l r hne
      refine fin v ?_ ?_
      · rw [hb, hZ]
        exact hv
      · rw [hvr, roundedValue, hlv, hrv]
        rfl

/-- Witness of C2: `(0.1 + 0.2) * 3 / 7` has no zero divisor and no product outside the
exponent range; its value is the quotient 0.9 / 7 rounded to 16 places. -/
theorem basic_tree_value_witness :
    ∃ v, ExprASTResult demoPow emptyRegistry
        (.BinaryExprAST "/"
          (.BinaryExprAST "*"
            (.BinaryExprAST "+" (.NumberExprAST ⟨1, -1⟩) (.NumberExprAST ⟨2, -1⟩))
            (.NumberExprAST ⟨3, 0⟩))
          (.NumberExprAST ⟨7, 0⟩)) = .ok v ∧
      v.toRat = roundedValue
        (.BinaryExprAST "/"
          (.BinaryExprAST "*"
            (.BinaryExprAST "+" (.NumberExprAST ⟨1, -1⟩) (.NumberExprAST ⟨2, -1⟩))
            (.NumberExprAST ⟨3, 0⟩))
          (.NumberExprAST ⟨7, 0⟩)) :=
  let ⟨v, h1, h2, _⟩ := basic_tree_value demoPow emptyRegistry
    (.BinaryExprAST "/"
      (.BinaryExprAST "*"
        (.BinaryExprAST "+" (.NumberExprAST ⟨1, -1⟩) (.NumberExprAST ⟨2, -1⟩))
        (.NumberExprAST ⟨3, 0⟩))
      (.NumberExprAST ⟨7, 0⟩)) rfl rfl (by decide)
  ⟨v, h1, h2⟩

/-! ## C3: totality and the faults of call-free trees -/

theorem zeroDivisor_node (Pow : PowFunc) (defFunc : Registry) (Op : String)
    (Lhs Rhs : ExprAST) (r : Decimal)
    (hzl : zeroDivisor Pow defFunc Lhs = false) (hzr : zeroDivisor Pow defFunc Rhs = false)
    (hr : ExprASTResult Pow defFunc Rhs = .ok r) :
    zeroDivisor Pow defFunc (.BinaryExprAST Op Lhs Rhs) =
      (decide (Op = "/" ∨ Op = "%") && r.IsZero) := by
  rw [zeroDivisor, hzl, hzr, hr]
  rfl

theorem mulOverflow_node (Pow : PowFunc) (defFunc : Registry) (Op : String)
    (Lhs Rhs : ExprAST) (l r : Decimal)
    (hml : mulOverflow Pow defFunc Lhs = false) (hmr : mulOverflow Pow defFunc Rhs = false)
    (hl : ExprASTResult Pow defFunc Lhs = .ok l)
    (hr : ExprASTResult Pow defFunc Rhs = .ok r) :
    mulOverflow Pow defFunc (.BinaryExprAST Op Lhs Rhs) =
      (decide (Op = "*") &&
        decide (l.exp + r.exp > Decimal.MaxInt32 ∨ l.exp + r.exp < Decimal.MinInt32)) := by
  rw [mulOverflow, hml, hmr, hl, hr]
  rfl

theorem powFaults_node (Pow : PowFunc) (defFunc : Registry) (Op : String)
    (Lhs Rhs : ExprAST) (l r : Decimal)
    (hpl : powFaults Pow defFunc Lhs = false) (hpr : powFaults Pow defFunc Rhs = false)
    (hl : ExprASTResult Pow defFunc Lhs = .ok l)
    (hr : ExprASTResult Pow defFunc Rhs = .ok r) :
    powFaults Pow defFunc (.BinaryExprAST Op Lhs Rhs) =
      (decide (Op = "^") &&
        match Pow l r with
        | .ok _ => false
        | .error _ => true) := by
  rw [powFaults, hpl, hpr, hl, hr]
  rfl

/-- A fault of the left subtree is a fault of the node, of the same kind. -/
theorem CallFreeFault_left (Pow : PowFunc) (defFunc : Registry) (Op : String)
    (Lhs Rhs : ExprAST) (f : Fault) (h : CallFreeFault Pow defFunc Lhs f) :
    CallFreeFault Pow defFunc (.BinaryExprAST Op Lhs Rhs) f := by
  rcases h with ⟨h, hx⟩ | ⟨h, hx⟩ | ⟨h, hx⟩
  · exact Or.inl ⟨by simp [zeroDivisor, h], hx⟩
  · exact Or.inr (Or.inl ⟨by simp [mulOverflow, h], hx⟩)
  · exact Or.inr (Or.inr ⟨by simp [powFaults, h], hx⟩)

/-- A fault of the right subtree is a fault of the node, of the same kind. -/
theorem CallFreeFault_right (Pow : PowFunc) (defFunc : Registry) (Op : String)
    (Lhs Rhs : ExprAST) (f : Fault) (h : CallFreeFault Pow defFunc Rhs f) :
    CallFreeFault Pow defFunc (.BinaryExprAST Op Lhs Rhs) f := by
  rcases h with ⟨h, hx⟩ | ⟨h, hx⟩ | ⟨h, hx⟩
  · exact Or.inl ⟨by simp [zeroDivisor, h], hx⟩
  · exact Or.inr (Or.inl ⟨by simp [mulOverflow, h], hx⟩)
  · exact Or.inr (Or.inr ⟨by simp [powFaults, h], hx⟩)

/-- A call-free tree either returns a value, none of the three fault conditions
holding, or faults with a fault of one of the three kinds. -/
theorem ExprASTResult_noCalls (Pow : PowFunc) (defFunc : Registry) :
    ∀ t : ExprAST, t.noCalls = true →
      (∃ v, ExprASTResult Pow defFunc t = .ok v ∧ zeroDivisor Pow defFunc t = false ∧
        mulOverflow Pow defFunc t = false ∧ powFaults Pow defFunc t = false) ∨
      (∃ f, ExprASTResult Pow defFunc t = .error f ∧ CallFreeFault Pow defFunc t f)
  | .NumberExprAST v, _ => Or.inl ⟨v, by rw [ExprASTResult], rfl, rfl, rfl⟩
  | .FunCallerExprAST _ _, h => by simp [ExprAST.noCalls] at h
  | .BinaryExprAST Op Lhs Rhs, h => by
    simp only [ExprAST.noCalls, Bool.and_eq_true] at h
    rcases ExprASTResult_noCalls Pow defFunc Lhs h.1 with
      ⟨l, hl, hzl, hml, hpl⟩ | ⟨f, hf, hc⟩
    swap
    · exact Or.inr ⟨f, by rw [ExprASTResult, hf], CallFreeFault_left Pow defFunc Op Lhs Rhs f hc⟩
    rcases ExprASTResult_noCalls Pow defFunc Rhs h.2 with
      ⟨r, hr, hzr, hmr, hpr⟩ | ⟨f, hf, hc⟩
    swap
    · exact Or.inr ⟨f, by rw [ExprASTResult, hl, hf],
        CallFreeFault_right Pow defFunc Op Lhs Rhs f hc⟩
    have hb := ExprASTResult_binary Pow defFunc Op Lhs Rhs l r hl hr
    have hzn := zeroDivisor_node Pow defFunc Op Lhs Rhs r hzl hzr hr
    have hmn := mulOverflow_node Pow defFunc Op Lhs Rhs l r hml hmr hl hr
    have hpn := powFaults_node Pow defFunc Op Lhs Rhs l r hpl hpr hl hr
    by_cases hmul : Op = "*"
    · -- a product: inside or outside the exponent range
      have hd : ¬ (Op = "/" ∨ Op = "%") := by rw [hmul]; decide
      have hp : ¬ Op = "^" := by rw [hmul]; decide
      have hres : ExprASTResult Pow defFunc (.BinaryExprAST Op Lhs Rhs) = l.Mul r := by
        rw [hb, hmul]
        rfl
      by_cases hov : l.exp + r.exp > Decimal.MaxInt32 ∨ l.exp + r.exp < Decimal.MinInt32
      · obtain ⟨f, hf⟩ := Decimal.Mul_overflow l r hov
        exact Or.inr ⟨f, by rw [hres, hf],
          Or.inr (Or.inl ⟨by rw [hmn]; simp [hmul, hov], l, r, hov, hf⟩)⟩
      · obtain ⟨v, hv, -⟩ := Decimal.Mul_spec l r hov
        exact Or.inl ⟨v, by rw [hres, hv], by rw [hzn]; simp [hd], by rw [hmn]; simp [hov],
          by rw [hpn]; simp [hp]⟩
    · by_cases hdm : Op = "/" ∨ Op = "%"
      · -- a quotient or a remainder: the divisor is zero or not
        have hp : ¬ Op = "^" := by rcases hdm with h | h <;> (rw [h]; decide)
        obtain ⟨h0, h1⟩ := divmod_node Pow defFunc Op Lhs Rhs l r hdm hl hr
        by_cases hz : r.value = 0
        · have hZ : r.IsZero = true := (Decimal.IsZero_iff r).2 hz
          exact Or.inr ⟨_, h0 hz,
            Or.inl ⟨by rw [hzn]; simp [hdm, hZ], Op, l, r, hdm, hz, rfl⟩⟩
        · have hZ : r.IsZero = false := by
            cases h : r.IsZero
            · rfl
            · exact absurd ((Decimal.IsZero_iff r).1 h) hz
          obtain ⟨v, hv⟩ := h1 hz
          exact Or.inl ⟨v, hv, by rw [hzn]; simp [hZ], by rw [hmn]; simp [hmul],
            by rw [hpn]; simp [hp]⟩
      · have hd : ¬ Op = "/" := fun h => hdm (Or.inl h)
        have hm : ¬ Op = "%" := fun h => hdm (Or.inr h)
        by_cases hpow : Op = "^"
        · -- a power: the library's `Pow` returns or panics
          have hres : ExprASTResult Pow defFunc (.BinaryExprAST Op Lhs Rhs) = Pow l r := by
            rw [hb, hpow]
            rfl
          cases hP : Pow l r with
          | ok v =>
            exact Or.inl ⟨v, by rw [hres, hP], by rw [hzn]; simp [hdm],
              by rw [hmn]; simp [hmul], by rw [hpn]; simp [hP]⟩
          | error f =>
            exact Or.inr ⟨f, by rw [hres, hP],
              Or.inr (Or.inr ⟨by rw [hpn]; simp [hpow, hP], l, r, hP⟩)⟩
        · -- a sum, a difference, or an operator outside the six
          have hres : ∃ v, ExprASTResult Pow defFunc (.BinaryExprAST Op Lhs Rhs) = .ok v := by
            rw [hb]
            simp only [hmul, hd, hm, hpow, if_false]
            split_ifs <;> exact ⟨_, rfl⟩
          obtain ⟨v, hv⟩ := hres
          exact Or.inl ⟨v, hv, by rw [hzn]; simp [hdm], by rw [hmn]; simp [hmul],
            by rw [hpn]; simp [hpow]⟩

/-- C3 as stated fails at `1e2147483647 * 1e1`: the tree has no function call and no
"/" or "%" node, and the evaluation faults: the library's `Mul` panics, the exponent of
the product being outside `int32`. -/
theorem callfree_fault_counterexample :
    (ExprAST.BinaryExprAST "*" (.NumberExprAST ⟨1, 2147483647⟩)
      (.NumberExprAST ⟨1, 1⟩)).noCalls = true ∧
    zeroDivisor demoPow emptyRegistry
      (.BinaryExprAST "*" (.NumberExprAST ⟨1, 2147483647⟩) (.NumberExprAST ⟨1, 1⟩)) = false ∧
    ExprASTResult demoPow emptyRegistry
      (.BinaryExprAST "*" (.NumberExprAST ⟨1, 2147483647⟩) (.NumberExprAST ⟨1, 1⟩)) =
        .error (.other "exponent 2147483648 overflows an int32!") :=
  ⟨rfl, rfl, rfl⟩

/-- C3, amended: on a tree of number literals and binary operations (no function call),
whatever the operator symbols, `ExprASTResult` is a total function, and it faults only
in three ways: with the division-by-zero error of a "/" or "%" node whose right operand
evaluates to zero, with the panic of the library's `Mul` at a "*" node whose operands
have exponents that sum outside the `int32` range, or with a panic of the library's
`Pow` at a "^" node; in every other case it returns a decimal value. -/
theorem callfree_faults_classified (Pow : PowFunc) (defFunc : Registry) (t : ExprAST)
    (ht : t.noCalls = true) :
    (∀ f, ExprASTResult Pow defFunc t = .error f → CallFreeFault Pow defFunc t f) ∧
    (zeroDivisor Pow defFunc t = false → mulOverflow Pow defFunc t = false →
      powFaults Pow defFunc t = false → ∃ v, ExprASTResult Pow defFunc t = .ok v) := by
  rcases ExprASTResult_noCalls Pow defFunc t ht with ⟨v, hv, hz, hm, hp⟩ | ⟨f, hf, hc⟩
  · refine ⟨?_, fun _ _ _ => ⟨v, hv⟩⟩
    intro f hf
    rw [hv] at hf
    cases hf
  · refine ⟨?_, ?_⟩
    · intro g hg
      rw [hf] at hg
      injection hg with hg
      rw [← hg]
      exact hc
    · intro hz hm hp
      rcases hc with ⟨h, -⟩ | ⟨h, -⟩ | ⟨h, -⟩
      · rw [hz] at h; cases h
      · rw [hm] at h; cases h
      · rw [hp] at h; cases h

/-- Witness of C3: `(1 + 2 ^ 3) % (4 - 4)` has no call; its fault is the modulo-by-zero
error, and the tree has a divisor that evaluates to zero. -/
theorem callfree_faults_classified_witness :
    CallFreeFault demoPow emptyRegistry
      (.BinaryExprAST "%"
        (.BinaryExprAST "+" (.NumberExprAST ⟨1, 0⟩)
          (.BinaryExprAST "^" (.NumberExprAST ⟨2, 0⟩) (.NumberExprAST ⟨3, 0⟩)))
        (.BinaryExprAST "-" (.NumberExprAST ⟨4, 0⟩) (.NumberExprAST ⟨4, 0⟩)))
      (.error (.divisionByZero "%" ⟨9, 0⟩ ⟨0, 0⟩)) :=
  (callfree_faults_classified demoPow emptyRegistry
    (.BinaryExprAST "%"
      (.BinaryExprAST "+" (.NumberExprAST ⟨1, 0⟩)
        (.BinaryExprAST "^" (.NumberExprAST ⟨2, 0⟩) (.NumberExprAST ⟨3, 0⟩)))
      (.BinaryExprAST "-" (.NumberExprAST ⟨4, 0⟩) (.NumberExprAST ⟨4, 0⟩))) rfl).1
    (.error (.divisionByZero "%" ⟨9, 0⟩ ⟨0, 0⟩)) (by rfl)

/-! ## C4: calls of unregistered names -/

/-- C4 as stated fails: the code has no fault of unknown functions. The call `f()` in
the empty registry, where `f` is no key, raises the runtime error of calling a nil
function; and the same call after `RegFunction("f", 0, nil)` has succeeded, where `f`
is a key, raises the same error. -/
theorem unknown_function_counterexample :
    emptyRegistry "f" = none ∧
    ExprASTResult demoPow emptyRegistry (.FunCallerExprAST "f" []) =
      .error (.error .nilFuncCall) ∧
    (RegFunction emptyRegistry "f" 0 none).2 = none ∧
    ((RegFunction emptyRegistry "f" 0 none).1 "f").isSome = true ∧
    ExprASTResult demoPow (RegFunction emptyRegistry "f" 0 none).1 (.FunCallerExprAST "f" []) =
      .error (.error .nilFuncCall) :=
  ⟨rfl, rfl, rfl, rfl, rfl⟩

/-- C4, amended: when the name of a function-call node is no key of the registry,
`ExprASTResult` does not return: it panics with the runtime error of calling the nil
function of the zero-value entry, the error a call of a name registered with a nil
callback raises too; and `ParseAndExec`, on an input that tokenizes and parses without
error to such a node, returns that error (a non-nil error) next to a zero decimal. -/
theorem unknown_function_faults {Token AST : Type} (fe : Frontend Token AST)
    (Pow : PowFunc) (defFunc : Registry) (Name : String)
    (Arg : List ExprAST) (hmiss : defFunc Name = none) :
    ExprASTResult Pow defFunc (.FunCallerExprAST Name Arg) = .error (.error .nilFuncCall) ∧
    (∀ argc : Int, ExprASTResult Pow (defFunc.set Name ⟨argc, none⟩)
      (.FunCallerExprAST Name Arg) = .error (.error .nilFuncCall)) ∧
    ∀ (s : String) (toks : List Token),
      fe.Parse s = (toks, none) → fe.Err (fe.NewAST toks s) = none →
      (fe.ParseExpression (fe.NewAST toks s)).1 = .FunCallerExprAST Name Arg →
      fe.Err (fe.ParseExpression (fe.NewAST toks s)).2 = none →
      ParseAndExec fe Pow defFunc s = .ok (Decimal.zeroValue, some .nilFuncCall) := by
  have h : ExprASTResult Pow defFunc (.FunCallerExprAST Name Arg) =
      .error (.error .nilFuncCall) := by
    simp [ExprASTResult, Registry.index, hmiss, defS.zeroValue]
  refine ⟨h, ?_, ?_⟩
  · intro argc
    simp [ExprASTResult, Registry.index, Registry.set]
  · intro s toks hp he hx he2
    simp only [ParseAndExec, hp, he, he2, hx, h]

/-- Witness of C4: nothing is registered under `f`, and `"f()"` yields the error. -/
theorem unknown_function_faults_witness :
    ParseAndExec demoFrontend demoPow emptyRegistry "f()" =
      .ok (Decimal.zeroValue, some .nilFuncCall) :=
  (unknown_function_faults demoFrontend demoPow emptyRegistry "f" [] rfl).2.2
    "f()" ['f', '(', ')'] rfl rfl rfl rfl

/-! ## C5 – C8: registration -/

theorem Registry.set_self (defFunc : Registry) (name : String) (d : defS) :
    defFunc.set name d name = some d := by
  simp [Registry.set]

theorem Registry.set_of_ne (defFunc : Registry) (name k : String) (d : defS) (h : k ≠ name) :
    defFunc.set name d k = defFunc k := by
  simp [Registry.set, h]

/-- The rejecting paths of `RegFunction`: an error, and the registry as it was. -/
theorem RegFunction_of_reject (defFunc : Registry) (name : String) (argc : Int)
    (func : Option Callback)
    (h : name = "" ∨ argc < -1 ∨ (defFunc name).isSome = true) :
    ∃ msg, RegFunction defFunc name argc func = (defFunc, some (.message msg)) := by
  unfold RegFunction
  by_cases h1 : name.utf8ByteSize = 0
  · exact ⟨_, by rw [if_pos h1]⟩
  · by_cases h2 : argc < -1
    · exact ⟨_, by rw [if_neg h1, if_pos h2]⟩
    · have h3 : (defFunc name).isSome = true := by
        rcases h with h | h | h
        · exact absurd ((utf8ByteSize_eq_zero_iff name).2 h) h1
        · exact absurd h h2
        · exact h
      exact ⟨_, by rw [if_neg h1, if_neg h2, if_pos h3]⟩

/-- The accepting path of `RegFunction`: nil, and the registry with the new entry. -/
theorem RegFunction_of_accept (defFunc : Registry) (name : String) (argc : Int)
    (func : Option Callback)
    (h : ¬ (name = "" ∨ argc < -1 ∨ (defFunc name).isSome = true)) :
    RegFunction defFunc name argc func = (defFunc.set name ⟨argc, func⟩, none) := by
  have h1 : ¬ name.utf8ByteSize = 0 :=
    fun h0 => h (Or.inl ((utf8ByteSize_eq_zero_iff name).1 h0))
  have h2 : ¬ argc < -1 := fun h0 => h (Or.inr (Or.inl h0))
  have h3 : ¬ (defFunc name).isSome = true := fun h0 => h (Or.inr (Or.inr h0))
  unfold RegFunction
  rw [if_neg h1, if_neg h2, if_neg h3]

/-- C5: `RegFunction` returns an error if and only if the name is empty, or the arity is
less than -1, or the name is already a key of the registry; otherwise it returns nil. -/
theorem RegFunction_error_iff (defFunc : Registry) (name : String) (argc : Int)
    (func : Option Callback) :
    ((RegFunction defFunc name argc func).2 ≠ none ↔
      (name = "" ∨ argc < -1 ∨ (defFunc name).isSome = true)) ∧
    (¬ (name = "" ∨ argc < -1 ∨ (defFunc name).isSome = true) →
      (RegFunction defFunc name argc func).2 = none) := by
  have hacc := RegFunction_of_accept defFunc name argc func
  refine ⟨⟨?_, ?_⟩, fun h => by rw [hacc h]⟩
  · intro herr
    by_contra h
    exact herr (by rw [hacc h])
  · intro h
    obtain ⟨msg, hmsg⟩ := RegFunction_of_reject defFunc name argc func h
    rw [hmsg]
    simp

/-- C6: whenever `RegFunction` returns an error the registry is unchanged; and after a
successful registration of `name`, a second registration of the same name, with any
arity and callback, returns an error and leaves the first entry in place. -/
theorem RegFunction_error_keeps_registry (defFunc : Registry) (name : String) (argc : Int)
    (func : Option Callback) :
    ((RegFunction defFunc name argc func).2 ≠ none →
      (RegFunction defFunc name argc func).1 = defFunc) ∧
    ((RegFunction defFunc name argc func).2 = none →
      ∀ (argc2 : Int) (func2 : Option Callback),
        (RegFunction (RegFunction defFunc name argc func).1 name argc2 func2).2 ≠ none ∧
        (RegFunction (RegFunction defFunc name argc func).1 name argc2 func2).1 name =
          some ⟨argc, func⟩) := by
  by_cases h : name = "" ∨ argc < -1 ∨ (defFunc name).isSome = true
  · obtain ⟨msg, hmsg⟩ := RegFunction_of_reject defFunc name argc func h
    rw [hmsg]
    simp
  · rw [RegFunction_of_accept defFunc name argc func h]
    refine ⟨fun h0 => absurd rfl h0, fun _ argc2 func2 => ?_⟩
    have hs : (defFunc.set name ⟨argc, func⟩ name).isSome = true := by
      rw [Registry.set_self]; rfl
    obtain ⟨msg, hmsg⟩ := RegFunction_of_reject (defFunc.set name ⟨argc, func⟩) name argc2
      func2 (Or.inr (Or.inr hs))
    rw [hmsg]
    exact ⟨by simp, Registry.set_self _ _ _⟩

/-- C7: for a registry without the non-empty name `name`, an arity `argc >= -1` and a
callback `f`, `RegFunction` succeeds, and afterwards `ExprASTResult` on a call node of
that name returns, for every argument list, `f` applied to the argument subtrees as
they stand. -/
theorem registered_function_is_called (Pow : PowFunc)
    (defFunc : Registry) (name : String) (argc : Int) (f : Callback)
    (hname : name ≠ "") (hargc : -1 ≤ argc) (hfresh : defFunc name = none) :
    (RegFunction defFunc name argc (some f)).2 = none ∧
    ∀ Arg : List ExprAST,
      ExprASTResult Pow (RegFunction defFunc name argc (some f)).1
        (.FunCallerExprAST name Arg) = f Arg := by
  have h1 : ¬ name.utf8ByteSize = 0 := fun h => hname ((utf8ByteSize_eq_zero_iff name).1 h)
  have h2 : ¬ argc < -1 := not_lt.2 hargc
  unfold RegFunction
  simp [h1, h2, hfresh, ExprASTResult, Registry.index, Registry.set]

/-- Witness of C7: `count`, registered with arity -1, is called with 0, 1 and 3
argument subtrees. -/
theorem registered_function_is_called_witness :
    ExprASTResult demoPow (RegFunction emptyRegistry "count" (-1) (some countArgs)).1
        (.FunCallerExprAST "count" []) = .ok ⟨0, 0⟩ ∧
    ExprASTResult demoPow (RegFunction emptyRegistry "count" (-1) (some countArgs)).1
        (.FunCallerExprAST "count" [.NumberExprAST ⟨7, 0⟩]) = .ok ⟨1, 0⟩ ∧
    ExprASTResult demoPow (RegFunction emptyRegistry "count" (-1) (some countArgs)).1
        (.FunCallerExprAST "count"
          [.NumberExprAST ⟨1, 0⟩, .NumberExprAST ⟨2, 0⟩, .NumberExprAST ⟨3, 0⟩]) =
      .ok ⟨3, 0⟩ :=
  have h := (registered_function_is_called demoPow emptyRegistry "count" (-1) countArgs
    (by decide) (by decide) rfl).2
  ⟨h [], h [.NumberExprAST ⟨7, 0⟩],
    h [.NumberExprAST ⟨1, 0⟩, .NumberExprAST ⟨2, 0⟩, .NumberExprAST ⟨3, 0⟩]⟩

/-- C8: every entry of the registry is still there, with the same arity and callback,
after any call of `RegFunction`; and a successful call adds exactly one key, the
registered name, which was absent before, and changes no other key. -/
theorem RegFunction_preserves_entries (defFunc : Registry) (name : String) (argc : Int)
    (func : Option Callback) :
    (∀ (k : String) (d : defS), defFunc k = some d →
      (RegFunction defFunc name argc func).1 k = some d) ∧
    ((RegFunction defFunc name argc func).2 = none →
      defFunc name = none ∧
      (RegFunction defFunc name argc func).1 name = some ⟨argc, func⟩ ∧
      ∀ k : String, k ≠ name → (RegFunction defFunc name argc func).1 k = defFunc k) := by
  by_cases h : name = "" ∨ argc < -1 ∨ (defFunc name).isSome = true
  · obtain ⟨msg, hmsg⟩ := RegFunction_of_reject defFunc name argc func h
    rw [hmsg]
    exact ⟨fun k d hk => hk, fun h0 => by simp at h0⟩
  · rw [RegFunction_of_accept defFunc name argc func h]
    have h4 : defFunc name = none := by
      cases h0 : defFunc name with
      | none => rfl
      | some d => exact absurd (Or.inr (Or.inr (by rw [h0]; rfl))) h
    refine ⟨?_, fun _ => ⟨h4, Registry.set_self _ _ _, fun k hk => Registry.set_of_ne _ _ _ _ hk⟩⟩
    intro k d hk
    have hne : k ≠ name := by
      rintro rfl
      rw [h4] at hk
      cases hk
    show defFunc.set name ⟨argc, func⟩ k = some d
    rw [Registry.set_of_ne _ _ _ _ hne, hk]

/-! ## C9: the rendering of an error position -/

theorem ErrPos.loop_eq (n : Nat) (s : String) :
    ErrPos.loop n s = s ++ String.mk (List.replicate n ' ') := by
  induction n generalizing s with
  | zero =>
    apply String.ext
    simp [ErrPos.loop]
  | succ n ih =>
    rw [ErrPos.loop, ih]
    apply String.ext
    simp [List.replicate_succ]

theorem Repeat_dash (n : Nat) : Repeat "-" n = String.mk (List.replicate n '-') := by
  induction n with
  | zero => rfl
  | succ n ih =>
    rw [Repeat, ih]
    apply String.ext
    simp [List.replicate_succ']

/-- C9: for every source `s` and offset `pos >= 0`, `ErrPos(s, pos)` is a rule of `len(s)`
dashes, a newline, `s`, a newline, `pos` spaces and a caret, a newline, the same rule and
a newline; the caret is the character at index `pos` of its line. -/
theorem ErrPos_layout (s : String) (pos : Int) (hpos : 0 ≤ pos) :
    ErrPos s pos =
      String.mk (List.replicate s.utf8ByteSize '-') ++ "\n" ++ s ++ "\n" ++
        (String.mk (List.replicate pos.toNat ' ') ++ "^") ++ "\n" ++
        String.mk (List.replicate s.utf8ByteSize '-') ++ "\n" ∧
    ((pos.toNat : Int) = pos ∧
      (String.mk (List.replicate pos.toNat ' ') ++ "^").data.get? pos.toNat = some '^') := by
  refine ⟨?_, Int.toNat_of_nonneg hpos, ?_⟩
  · unfold ErrPos
    simp only [ErrPos.loop_eq, Repeat_dash]
    apply String.ext
    simp [List.append_assoc]
  · simp [List.getElem?_append_right]

/-- Witness of C9: the caret under offset 2 of `1+a`. -/
theorem ErrPos_layout_witness : ErrPos "1+a" 2 = "---\n1+a\n  ^\n---\n" :=
  (ErrPos_layout "1+a" 2 (by decide)).1.trans (by decide)

/-! ## C10: a result or an error, never both -/

/-- C10: whenever `ParseAndExec` returns a non-nil error, the decimal it returns with it
is zero: the constant `decimal.Zero` on a tokenizer or parser error, the zero value of
the type when a panic of the evaluation was recovered; no value computed by the
evaluation comes with an error. -/
theorem ParseAndExec_error_gives_zero {Token AST : Type} (fe : Frontend Token AST)
    (Pow : PowFunc) (defFunc : Registry) (s : String)
    (r : Decimal) (err : GoError)
    (h : ParseAndExec fe Pow defFunc s = .ok (r, some err)) :
    r.IsZero = true ∧ r.toRat = 0 ∧ (r = Decimal.Zero ∨ r = Decimal.zeroValue) := by
  have key : r = Decimal.Zero ∨ r = Decimal.zeroValue := by
    unfold ParseAndExec at h
    split at h
    · injection h with h; injection h with h1 h2; exact Or.inl h1.symm
    · dsimp only at h
      split at h
      · injection h with h; injection h with h1 h2; exact Or.inl h1.symm
      · split at h
        · injection h with h; injection h with h1 h2; exact Or.inl h1.symm
        · split at h
          · injection h with h; injection h with h1 h2; cases h2
          · injection h with h; injection h with h1 h2; exact Or.inr h1.symm
          · cases h
  rcases key with rfl | rfl
  · exact ⟨rfl, by simp [Decimal.toRat, Decimal.Zero, Decimal.New], Or.inl rfl⟩
  · exact ⟨rfl, by simp [Decimal.toRat, Decimal.zeroValue], Or.inr rfl⟩

/-- Witness of C10: `"5/0"` returns the division-by-zero error with a zero decimal. -/
theorem ParseAndExec_error_gives_zero_witness :
    ParseAndExec demoFrontend demoPow emptyRegistry "5/0" =
        .ok (Decimal.zeroValue, some (.divisionByZero "/" ⟨5, 0⟩ ⟨0, 0⟩)) ∧
      Decimal.zeroValue.IsZero = true :=
  ⟨rfl, (ParseAndExec_error_gives_zero demoFrontend demoPow emptyRegistry "5/0"
    Decimal.zeroValue (.divisionByZero "/" ⟨5, 0⟩ ⟨0, 0⟩) rfl).1⟩

/-! ## C11: the entry point after a successful parse -/

/-- The entry point on an input that tokenizes and parses without error: the outcome of
the evaluation of the tree decides the result. -/
theorem ParseAndExec_of_parsed {Token AST : Type} (fe : Frontend Token AST)
    (Pow : PowFunc) (defFunc : Registry) (s : String)
    (toks : List Token) (hp : fe.Parse s = (toks, none))
    (he : fe.Err (fe.NewAST toks s) = none)
    (he2 : fe.Err (fe.ParseExpression (fe.NewAST toks s)).2 = none) :
    ParseAndExec fe Pow defFunc s =
      match ExprASTResult Pow defFunc (fe.ParseExpression (fe.NewAST toks s)).1 with
      | .ok v => .ok (v, none)
      | .error (.error e) => .ok (Decimal.zeroValue, some e)
      | .error (.other _) => .error (.error .typeAssertion) := by
  simp only [ParseAndExec, hp, he, he2]

/-- C11 fails on the code when the evaluation panics with a value that is no `error`:
with a callback registered under `p` that panics with a string, `"p()"` tokenizes and
parses to a call node whose evaluation faults, and `ParseAndExec` does not return an
error: the type assertion of its deferred function panics. -/
theorem ParseAndExec_panics_on_string_panic :
    demoFrontend.Parse "p()" = (['p', '(', ')'], none) ∧
    demoFrontend.Err (demoFrontend.NewAST ['p', '(', ')'] "p()") = none ∧
    demoFrontend.ParseExpression (demoFrontend.NewAST ['p', '(', ')'] "p()") =
      (.FunCallerExprAST "p" [], (['p', '(', ')'], none)) ∧
    ExprASTResult demoPow (RegFunction emptyRegistry "p" 0 (some panicString)).1
      (.FunCallerExprAST "p" []) = .error (.other "boom") ∧
    ParseAndExec demoFrontend demoPow (RegFunction emptyRegistry "p" 0 (some panicString)).1
      "p()" = .error (.error .typeAssertion) :=
  ⟨rfl, rfl, rfl, rfl, rfl⟩

/-! ## C12: operators outside the six -/

/-- C12 as stated fails at the node `1 ? 2`: the operator is none of the six, and the
evaluation returns `decimal.Zero` instead of raising a fault. -/
theorem unknown_operator_counterexample :
    ExprASTResult demoPow emptyRegistry
      (.BinaryExprAST "?" (.NumberExprAST ⟨1, 0⟩) (.NumberExprAST ⟨2, 0⟩)) =
        .ok Decimal.Zero :=
  rfl

/-- C12, amended: for a binary node whose operator is none of + - * / % ^,
`ExprASTResult` evaluates the left and the right subtree, faults with the fault of the
first of them that faults, and returns `decimal.Zero` when neither faults; the node
raises no fault of its own. -/
theorem unknown_operator_returns_zero (Pow : PowFunc)
    (defFunc : Registry) (Op : String) (Lhs Rhs : ExprAST)
    (hop : Op ≠ "+" ∧ Op ≠ "-" ∧ Op ≠ "*" ∧ Op ≠ "/" ∧ Op ≠ "%" ∧ Op ≠ "^") :
    ExprASTResult Pow defFunc (.BinaryExprAST Op Lhs Rhs) =
      match ExprASTResult Pow defFunc Lhs with
      | .error f => .error f
      | .ok _ =>
        match ExprASTResult Pow defFunc Rhs with
        | .error f => .error f
        | .ok _ => .ok Decimal.Zero := by
  obtain ⟨h1, h2, h3, h4, h5, h6⟩ := hop
  rw [ExprASTResult]
  cases hl : ExprASTResult Pow defFunc Lhs with
  | error f => rfl
  | ok l =>
    cases hr : ExprASTResult Pow defFunc Rhs with
    | error f => rfl
    | ok r => simp only [h1, h2, h3, h4, h5, h6, if_false]

/-- Witness of C12: `(7 - 7) ? 2` returns `decimal.Zero`, and `(1 / 0) ? 2` faults with
the fault of its left subtree. -/
theorem unknown_operator_returns_zero_witness :
    ExprASTResult demoPow emptyRegistry
      (.BinaryExprAST "?"
        (.BinaryExprAST "-" (.NumberExprAST ⟨7, 0⟩) (.NumberExprAST ⟨7, 0⟩))
        (.NumberExprAST ⟨2, 0⟩)) = .ok Decimal.Zero ∧
    ExprASTResult demoPow emptyRegistry
      (.BinaryExprAST "?"
        (.BinaryExprAST "/" (.NumberExprAST ⟨1, 0⟩) (.NumberExprAST ⟨0, 0⟩))
        (.NumberExprAST ⟨2, 0⟩)) = .error (.error (.divisionByZero "/" ⟨1, 0⟩ ⟨0, 0⟩)) :=
  ⟨(unknown_operator_returns_zero demoPow emptyRegistry "?"
      (.BinaryExprAST "-" (.NumberExprAST ⟨7, 0⟩) (.NumberExprAST ⟨7, 0⟩))
      (.NumberExprAST ⟨2, 0⟩) (by decide)).trans rfl,
    (unknown_operator_returns_zero demoPow emptyRegistry "?"
      (.BinaryExprAST "/" (.NumberExprAST ⟨1, 0⟩) (.NumberExprAST ⟨0, 0⟩))
      (.NumberExprAST ⟨2, 0⟩) (by decide)).trans rfl⟩

/-! ## C13: evaluation and the state of the process -/

/-- The evaluator over the state of the process agrees with the evaluator over a plain
registry when no callback reads or changes the state. -/
theorem ExprASTResultSt_toSt {σ : Type} (Pow : PowFunc) (defFunc : Registry) :
    ∀ (t : ExprAST) (s : σ),
      ExprASTResultSt Pow (Registry.toSt defFunc) t s = (ExprASTResult Pow defFunc t, s)
  | .NumberExprAST _, _ => by rw [ExprASTResultSt, ExprASTResult]
  | .FunCallerExprAST Name Arg, s => by
    rw [ExprASTResultSt, ExprASTResult]
    unfold Registry.toSt Registry.index defS.zeroValue
    cases defFunc Name with
    | none => rfl
    | some d =>
      cases hf : d.func with
      | none => simp [hf]
      | some f => simp [hf]
  | .BinaryExprAST Op Lhs Rhs, s => by
    rw [ExprASTResultSt, ExprASTResult, ExprASTResultSt_toSt Pow defFunc Lhs s]
    cases ExprASTResult Pow defFunc Lhs with
    | error f => rfl
    | ok l =>
      dsimp only
      rw [ExprASTResultSt_toSt Pow defFunc Rhs s]
      cases ExprASTResult Pow defFunc Rhs with
      | error f => rfl
      | ok r =>
        dsimp only
        split_ifs <;> rfl

/-- The state an evaluation leaves is the state it found, for a tree without function
calls and for every tree when the callbacks leave the state as they find it. -/
theorem ExprASTResultSt_state {σ : Type} (Pow : PowFunc) (defFunc : RegistrySt σ)
    (P : Prop)
    (hP : P → ∀ (s : σ) (name : String) (d : defSt σ) (f : Closure σ) (args : List ExprAST),
      defFunc s name = some d → d.func = some f → (f args s).2 = s) :
    ∀ (t : ExprAST) (s : σ), t.noCalls = true ∨ P →
      (ExprASTResultSt Pow defFunc t s).2 = s
  | .NumberExprAST _, _, _ => by rw [ExprASTResultSt]
  | .FunCallerExprAST Name Arg, s, h => by
    have hp : P := by
      rcases h with h | h
      · simp [ExprAST.noCalls] at h
      · exact h
    rw [ExprASTResultSt]
    cases hd : defFunc s Name with
    | none => rfl
    | some d =>
      cases hf : d.func with
      | none => simp [hf]
      | some f =>
        simp only [Option.getD_some, hf]
        exact hP hp s Name d f Arg hd hf
  | .BinaryExprAST Op Lhs Rhs, s, h => by
    have hL : Lhs.noCalls = true ∨ P := by
      rcases h with h | h
      · simp only [ExprAST.noCalls, Bool.and_eq_true] at h
        exact Or.inl h.1
      · exact Or.inr h
    have hR : Rhs.noCalls = true ∨ P := by
      rcases h with h | h
      · simp only [ExprAST.noCalls, Bool.and_eq_true] at h
        exact Or.inl h.2
      · exact Or.inr h
    have h1 := ExprASTResultSt_state Pow defFunc P hP Lhs s hL
    have h2 := ExprASTResultSt_state Pow defFunc P hP Rhs s hR
    rw [ExprASTResultSt]
    rcases e1 : ExprASTResultSt Pow defFunc Lhs s with ⟨o1, s1⟩
    rw [e1] at h1
    dsimp only at h1
    subst h1
    cases o1 with
    | error f => rfl
    | ok l =>
      dsimp only
      rcases e2 : ExprASTResultSt Pow defFunc Rhs s1 with ⟨o2, s2⟩
      rw [e2] at h2
      dsimp only at h2
      subst h2
      cases o2 with
      | error f => rfl
      | ok r =>
        dsimp only
        split_ifs <;> rfl

/-- C13 as stated fails when a registered callback keeps state: with the closure `next`,
which returns a counter and increments it, `next()` evaluates to 0 and then, with no
registration in between and the content of the registry the same, to 1. -/
theorem repeated_evaluation_counterexample :
    ExprASTResultSt demoPow counterRegistry (.FunCallerExprAST "next" []) 0 =
      (.ok ⟨0, 0⟩, 1) ∧
    ExprASTResultSt demoPow counterRegistry (.FunCallerExprAST "next" []) 1 =
      (.ok ⟨1, 0⟩, 2) ∧
    counterRegistry 0 = counterRegistry 1 ∧
    (Except.ok ⟨0, 0⟩ : Except Fault Decimal) ≠ .ok ⟨1, 0⟩ :=
  ⟨rfl, rfl, rfl, fun h => by
    injection h with h
    injection h with h
    exact absurd h (by decide)⟩

/-- C13, amended: `ExprASTResult` holds no assignment to the registry or to any other
state, so the state after an evaluation is the one the called callbacks left. For a
tree without function calls, and for every tree when each registered callback leaves
the state of the process as it found it, the evaluation leaves the state, the registry
included, unchanged, and a second evaluation of the tree yields the identical outcome,
the same decimal value or the same fault. -/
theorem evaluation_is_repeatable {σ : Type} (Pow : PowFunc) (defFunc : RegistrySt σ)
    (t : ExprAST) (s : σ)
    (h : t.noCalls = true ∨
      ∀ (s : σ) (name : String) (d : defSt σ) (f : Closure σ) (args : List ExprAST),
        defFunc s name = some d → d.func = some f → (f args s).2 = s) :
    (ExprASTResultSt Pow defFunc t s).2 = s ∧
    defFunc (ExprASTResultSt Pow defFunc t s).2 = defFunc s ∧
    (ExprASTResultSt Pow defFunc t (ExprASTResultSt Pow defFunc t s).2).1 =
      (ExprASTResultSt Pow defFunc t s).1 := by
  have hs := ExprASTResultSt_state Pow defFunc _ (fun hp => hp) t s h
  rw [hs]
  exact ⟨rfl, rfl, rfl⟩

/-- Witness of C13: the closure `get` reads the state and leaves it; `get() / 0` faults
twice with the same error, and the state stays 5. -/
theorem evaluation_is_repeatable_witness :
    ExprASTResultSt demoPow readerRegistry
        (.BinaryExprAST "/" (.FunCallerExprAST "get" []) (.NumberExprAST ⟨0, 0⟩)) 5 =
      (.error (.error (.divisionByZero "/" ⟨5, 0⟩ ⟨0, 0⟩)), 5) ∧
    (ExprASTResultSt demoPow readerRegistry
        (.BinaryExprAST "/" (.FunCallerExprAST "get" []) (.NumberExprAST ⟨0, 0⟩))
        (ExprASTResultSt demoPow readerRegistry
          (.BinaryExprAST "/" (.FunCallerExprAST "get" []) (.NumberExprAST ⟨0, 0⟩)) 5).2).1 =
      (ExprASTResultSt demoPow readerRegistry
        (.BinaryExprAST "/" (.FunCallerExprAST "get" []) (.NumberExprAST ⟨0, 0⟩)) 5).1 :=
  ⟨rfl, (evaluation_is_repeatable demoPow readerRegistry
    (.BinaryExprAST "/" (.FunCallerExprAST "get" []) (.NumberExprAST ⟨0, 0⟩)) 5
    (Or.inr (by
      intro s name d f args hd hf
      unfold readerRegistry at hd
      split at hd
      · injection hd with hd
        subst hd
        injection hf with hf
        subst hf
        rfl
      · cases hd))).2.2⟩

/-! ## C14: the order of evaluation in a binary node -/

/-- C14: a binary node evaluates its left subtree first: when that faults, the node
faults with the same fault, whatever the operator and the right subtree; when the left
subtree returns and the right one faults, the node faults with the fault of the right
subtree, whatever the operator; the zero-divisor check of the node, which follows both
evaluations, is not reached. -/
theorem binary_fault_order (Pow : PowFunc) (defFunc : Registry)
    (Op : String) (Lhs Rhs : ExprAST) :
    (∀ f, ExprASTResult Pow defFunc Lhs = .error f →
      ∀ (Op2 : String) (Rhs2 : ExprAST),
        ExprASTResult Pow defFunc (.BinaryExprAST Op2 Lhs Rhs2) = .error f) ∧
    (∀ l f, ExprASTResult Pow defFunc Lhs = .ok l →
      ExprASTResult Pow defFunc Rhs = .error f →
      ExprASTResult Pow defFunc (.BinaryExprAST Op Lhs Rhs) = .error f) := by
  constructor
  · intro f hf Op2 Rhs2
    rw [ExprASTResult, hf]
  · intro l f hl hr
    rw [ExprASTResult, hl, hr]

/-- Witness of C14: in `(1 / 0) % (p())` the fault is the division by zero of the left
subtree; in `1 / (2 % 0)` it is the modulo by zero of the right subtree, not a division
by zero of the node. -/
theorem binary_fault_order_witness :
    ExprASTResult demoPow emptyRegistry
      (.BinaryExprAST "%"
        (.BinaryExprAST "/" (.NumberExprAST ⟨1, 0⟩) (.NumberExprAST ⟨0, 0⟩))
        (.FunCallerExprAST "p" [])) = .error (.error (.divisionByZero "/" ⟨1, 0⟩ ⟨0, 0⟩)) ∧
    ExprASTResult demoPow emptyRegistry
      (.BinaryExprAST "/" (.NumberExprAST ⟨1, 0⟩)
        (.BinaryExprAST "%" (.NumberExprAST ⟨2, 0⟩) (.NumberExprAST ⟨0, 0⟩))) =
      .error (.error (.divisionByZero "%" ⟨2, 0⟩ ⟨0, 0⟩)) :=
  ⟨(binary_fault_order demoPow emptyRegistry "%"
      (.BinaryExprAST "/" (.NumberExprAST ⟨1, 0⟩) (.NumberExprAST ⟨0, 0⟩))
      (.FunCallerExprAST "p" [])).1 _ rfl "%" (.FunCallerExprAST "p" []),
    (binary_fault_order demoPow emptyRegistry "/" (.NumberExprAST ⟨1, 0⟩)
      (.BinaryExprAST "%" (.NumberExprAST ⟨2, 0⟩) (.NumberExprAST ⟨0, 0⟩))).2 ⟨1, 0⟩ _ rfl rfl⟩

/-! ## C15: the first error of the pipeline -/

/-- C15: `ParseAndExec` returns the first error of the pipeline, with `decimal.Zero`:
the error of the tokenizer, whatever the parser and the evaluation would do; else the
error slot of the parser after `NewAST`, whatever `ParseExpression` and the evaluation
would do; else the error slot after `ParseExpression`, whatever the evaluation of the
returned tree would do (also when it would panic). -/
theorem ParseAndExec_first_error {Token AST : Type} (fe : Frontend Token AST)
    (Pow : PowFunc) (defFunc : Registry) (s : String) (err : GoError) :
    (∀ toks, fe.Parse s = (toks, some err) →
      ParseAndExec fe Pow defFunc s = .ok (Decimal.Zero, some err)) ∧
    (∀ toks, fe.Parse s = (toks, none) → fe.Err (fe.NewAST toks s) = some err →
      ParseAndExec fe Pow defFunc s = .ok (Decimal.Zero, some err)) ∧
    (∀ toks, fe.Parse s = (toks, none) → fe.Err (fe.NewAST toks s) = none →
      fe.Err (fe.ParseExpression (fe.NewAST toks s)).2 = some err →
      ParseAndExec fe Pow defFunc s = .ok (Decimal.Zero, some err)) := by
  refine ⟨?_, ?_, ?_⟩
  · intro toks hp
    simp only [ParseAndExec, hp]
  · intro toks hp he
    simp only [ParseAndExec, hp, he]
  · intro toks hp he he2
    simp only [ParseAndExec, hp, he, he2]

/-- Witness of C15: a tokenizer error (`" 1"`), an error of `NewAST` (the empty input)
and an error of `ParseExpression` (`"abc"`) are each returned with `decimal.Zero`. -/
theorem ParseAndExec_first_error_witness :
    ParseAndExec demoFrontend demoPow emptyRegistry " 1" =
      .ok (Decimal.Zero, some (.message "unexpected character")) ∧
    ParseAndExec demoFrontend demoPow emptyRegistry "" =
      .ok (Decimal.Zero, some (.message "empty input")) ∧
    ParseAndExec demoFrontend demoPow emptyRegistry "abc" =
      .ok (Decimal.Zero, some (.message "syntax error")) :=
  ⟨(ParseAndExec_first_error demoFrontend demoPow emptyRegistry " 1"
      (.message "unexpected character")).1 [] rfl,
    (ParseAndExec_first_error demoFrontend demoPow emptyRegistry ""
      (.message "empty input")).2.1 [] rfl rfl,
    (ParseAndExec_first_error demoFrontend demoPow emptyRegistry "abc"
      (.message "syntax error")).2.2 ['a', 'b', 'c'] rfl rfl rfl⟩

/-! ## C16: the stored arity -/

/-- The callback a lookup yields is the same in two registries with the same names and
callbacks. -/
theorem Registry.index_func_congr (r1 r2 : Registry) (k : String)
    (h : (r1 k).map defS.func = (r2 k).map defS.func) :
    (r1.index k).func = (r2.index k).func := by
  unfold Registry.index
  cases h1 : r1 k with
  | none =>
    cases h2 : r2 k with
    | none => rfl
    | some d2 => rw [h1, h2] at h; cases h
  | some d1 =>
    cases h2 : r2 k with
    | none => rw [h1, h2] at h; cases h
    | some d2 =>
      rw [h1, h2] at h
      simpa using h

/-- Evaluation in two registries with the same names and callbacks. -/
theorem ExprASTResult_registry_congr (Pow : PowFunc) (r1 r2 : Registry)
    (h : ∀ k, (r1 k).map defS.func = (r2 k).map defS.func) :
    ∀ t : ExprAST, ExprASTResult Pow r1 t = ExprASTResult Pow r2 t
  | .NumberExprAST _ => by rw [ExprASTResult, ExprASTResult]
  | .FunCallerExprAST Name Arg => by
    rw [ExprASTResult, ExprASTResult, Registry.index_func_congr r1 r2 Name (h Name)]
  | .BinaryExprAST Op Lhs Rhs => by
    rw [ExprASTResult, ExprASTResult, ExprASTResult_registry_congr Pow r1 r2 h Lhs,
      ExprASTResult_registry_congr Pow r1 r2 h Rhs]

/-- C16: two registries with the same names and the same callbacks, whatever the
arities of their entries, give the same outcome on every tree; and an entry of any
arity `n` with callback `f` is called with every argument list, of any length, the
outcome being that of `f`: no arity check precedes the call. -/
theorem arity_never_consulted (Pow : PowFunc) (r1 r2 : Registry)
    (h : ∀ k, (r1 k).map defS.func = (r2 k).map defS.func) :
    (∀ t : ExprAST, ExprASTResult Pow r1 t = ExprASTResult Pow r2 t) ∧
    (∀ (name : String) (n : Int) (f : Callback) (Arg : List ExprAST),
      r1 name = some ⟨n, some f⟩ →
      ExprASTResult Pow r1 (.FunCallerExprAST name Arg) = f Arg ∧
      ExprASTResult Pow r2 (.FunCallerExprAST name Arg) = f Arg) := by
  have h1 := ExprASTResult_registry_congr Pow r1 r2 h
  refine ⟨h1, ?_⟩
  intro name n f Arg hn
  have e : ExprASTResult Pow r1 (.FunCallerExprAST name Arg) = f Arg := by
    simp [ExprASTResult, Registry.index, hn]
  exact ⟨e, (h1 _).symm.trans e⟩

/-- Witness of C16: `count` registered with arity 2 and with arity -1 gives the same
outcome on `count(1, 2, 3) + count()`, and the entry of arity 2 is called with three
arguments. -/
theorem arity_never_consulted_witness :
    ExprASTResult demoPow (RegFunction emptyRegistry "count" 2 (some countArgs)).1
      (.BinaryExprAST "+"
        (.FunCallerExprAST "count"
          [.NumberExprAST ⟨1, 0⟩, .NumberExprAST ⟨2, 0⟩, .NumberExprAST ⟨3, 0⟩])
        (.FunCallerExprAST "count" [])) =
    ExprASTResult demoPow (RegFunction emptyRegistry "count" (-1) (some countArgs)).1
      (.BinaryExprAST "+"
        (.FunCallerExprAST "count"
          [.NumberExprAST ⟨1, 0⟩, .NumberExprAST ⟨2, 0⟩, .NumberExprAST ⟨3, 0⟩])
        (.FunCallerExprAST "count" [])) ∧
    ExprASTResult demoPow (RegFunction emptyRegistry "count" 2 (some countArgs)).1
      (.FunCallerExprAST "count"
        [.NumberExprAST ⟨1, 0⟩, .NumberExprAST ⟨2, 0⟩, .NumberExprAST ⟨3, 0⟩]) =
      .ok ⟨3, 0⟩ :=
  have h := arity_never_consulted demoPow
    (RegFunction emptyRegistry "count" 2 (some countArgs)).1
    (RegFunction emptyRegistry "count" (-1) (some countArgs)).1
    (by
      intro k
      show (Registry.set emptyRegistry "count" ⟨2, some countArgs⟩ k).map defS.func =
        (Registry.set emptyRegistry "count" ⟨-1, some countArgs⟩ k).map defS.func
      unfold Registry.set
      by_cases hk : k = "count"
      · rw [if_pos hk, if_pos hk]; rfl
      · rw [if_neg hk, if_neg hk])
  ⟨h.1 _, (h.2 "count" 2 countArgs _ rfl).1⟩

/-! ## C17: offsets outside the source -/

theorem utf8ByteSize_go_append (l1 l2 : List Char) :
    String.utf8ByteSize.go (l1 ++ l2) =
      String.utf8ByteSize.go l1 + String.utf8ByteSize.go l2 := by
  induction l1 with
  | nil => simp [String.utf8ByteSize.go]
  | cons c cs ih =>
    rw [List.cons_append, String.utf8ByteSize.go, String.utf8ByteSize.go, ih]
    omega

theorem utf8ByteSize_append (a b : String) :
    (a ++ b).utf8ByteSize = a.utf8ByteSize + b.utf8ByteSize := by
  cases a with
  | mk l1 =>
    cases b with
    | mk l2 =>
      show String.utf8ByteSize.go (l1 ++ l2) = _
      exact utf8ByteSize_go_append l1 l2

theorem utf8ByteSize_replicate (n : Nat) (c : Char) (hc : c.utf8Size = 1) :
    (String.mk (List.replicate n c)).utf8ByteSize = n := by
  show String.utf8ByteSize.go (List.replicate n c) = n
  induction n with
  | zero => rfl
  | succ n ih =>
    rw [List.replicate_succ, String.utf8ByteSize.go, ih, hc]

/-- The text `ErrPos` builds, for every offset. -/
theorem ErrPos_eq (s : String) (pos : Int) :
    ErrPos s pos =
      String.mk (List.replicate s.utf8ByteSize '-') ++ "\n" ++ s ++ "\n" ++
        (String.mk (List.replicate pos.toNat ' ') ++ "^") ++ "\n" ++
        String.mk (List.replicate s.utf8ByteSize '-') ++ "\n" := by
  unfold ErrPos
  simp only [ErrPos.loop_eq, Repeat_dash]
  apply String.ext
  simp [List.append_assoc]

/-- C17: `ErrPos` is a total function with no check of the offset against the source:
an offset `pos <= 0` gives the text of offset 0; for every offset, also one beyond
`len(s)`, the caret line is `max(pos, 0)` spaces and a caret, which is longer than the
source when `pos > len(s)`; and the text is `3 * len(s) + max(pos, 0) + 5` bytes long. -/
theorem ErrPos_no_bounds_check (s : String) (pos : Int) :
    (pos ≤ 0 → ErrPos s pos = ErrPos s 0) ∧
    ErrPos s pos =
      String.mk (List.replicate s.utf8ByteSize '-') ++ "\n" ++ s ++ "\n" ++
        (String.mk (List.replicate pos.toNat ' ') ++ "^") ++ "\n" ++
        String.mk (List.replicate s.utf8ByteSize '-') ++ "\n" ∧
    ((s.utf8ByteSize : Int) < pos →
      (pos.toNat : Int) = pos ∧
      s.utf8ByteSize <
        (String.mk (List.replicate pos.toNat ' ') ++ "^").utf8ByteSize) ∧
    ((ErrPos s pos).utf8ByteSize : Int) = 3 * (s.utf8ByteSize : Int) + max pos 0 + 5 := by
  have hsp : (String.mk (List.replicate pos.toNat ' ')).utf8ByteSize = pos.toNat :=
    utf8ByteSize_replicate pos.toNat ' ' rfl
  have hrule : (String.mk (List.replicate s.utf8ByteSize '-')).utf8ByteSize =
      s.utf8ByteSize :=
    utf8ByteSize_replicate s.utf8ByteSize '-' rfl
  have hcaret : (String.mk (List.replicate pos.toNat ' ') ++ "^").utf8ByteSize =
      pos.toNat + 1 := by
    rw [utf8ByteSize_append, hsp]
    rfl
  have hnl : ("\n" : String).utf8ByteSize = 1 := rfl
  refine ⟨?_, ErrPos_eq s pos, ?_, ?_⟩
  · intro h
    rw [ErrPos_eq, ErrPos_eq, Int.toNat_of_nonpos h]
    rfl
  · intro h
    have h0 : 0 ≤ pos := le_trans (Int.ofNat_nonneg _) h.le
    refine ⟨Int.toNat_of_nonneg h0, ?_⟩
    rw [hcaret]
    omega
  · rw [ErrPos_eq]
    simp only [utf8ByteSize_append, hcaret, hnl, hrule]
    omega

/-- Witness of C17: offset 5 on the two-byte source `ab`, and a negative offset. -/
theorem ErrPos_no_bounds_check_witness :
    ErrPos "ab" 5 = "--\nab\n     ^\n--\n" ∧ ErrPos "ab" (-3) = ErrPos "ab" 0 ∧
      (ErrPos "ab" 5).utf8ByteSize = 16 :=
  ⟨(ErrPos_no_bounds_check "ab" 5).2.1.trans (by decide),
    (ErrPos_no_bounds_check "ab" (-3)).1 (by decide), by decide⟩

end Engine
